import Mathlib
set_option maxRecDepth 40000

/-!
Shallow embedding of the two core components of the repository:

* the Record Codec `to_gdns_records` / `from_gdns_records` of
  `src/salt/_utils/gdns.py`, and
* the State Differ `_is_subset` of `src/salt/_states/kubernetes.py`.

Python strings are Lean `String`s, Python ints are Lean `Int`s, Python dicts
are insertion-ordered association lists, and Python exceptions are explicit
error values (`Option`/`Except`).  The Python string primitives used by the
source (`str.strip`, `str.replace`, `str.split`, `str.upper`, `str(int)`,
`int(str)`) are embedded as structurally recursive Lean functions so that all
definitions evaluate by kernel reduction.
-/
/-! ### Python string primitives -/
/-- Python `s.strip(chars)`: remove every leading and trailing character that
belongs to the character set `cs`. -/
def pyStripChars (cs : List Char) (s : String) : String :=
  String.mk (((s.data.dropWhile (· ∈ cs)).reverse.dropWhile (· ∈ cs)).reverse)

/-- Python `s.upper()` (ASCII, which is the domain used by the source). -/
def pyUpper (s : String) : String := String.mk (s.data.map Char.toUpper)

/-- Python `s.replace(pat, "")` for a nonempty pattern `pat`: delete every
non-overlapping occurrence of `pat`, scanning left to right.  Worker with
explicit structural fuel (one unit per consumed character suffices). -/
def replGo (pat : List Char) : Nat → List Char → List Char
  | 0, l => l
  | _+1, [] => []
  | f+1, c :: rest =>
    if (c :: rest).take pat.length = pat then replGo pat f ((c :: rest).drop pat.length)
    else c :: replGo pat f rest

/-- Python `s.replace(pat, "")`. -/
def pyReplaceDel (s pat : String) : String := String.mk (replGo pat.data s.data.length s.data)

/-- Worker for Python `s.split(sep)`; the fuel argument (one unit per consumed
character) makes the recursion structural. -/
def splitGo (sep : List Char) : Nat → List Char → List Char → List String
  | 0, acc, l => [String.mk (acc.reverse ++ l)]
  | _+1, acc, [] => [String.mk acc.reverse]
  | f+1, acc, c :: rest =>
    if (c :: rest).take sep.length = sep then
      String.mk acc.reverse :: splitGo sep f [] ((c :: rest).drop sep.length)
    else
      splitGo sep f (c :: acc) rest

/-- Python `s.split(sep)` for a nonempty separator (the source only uses
`" "`): split on every occurrence, keeping empty tokens. -/
def pySplit (s sep : String) : List String := splitGo sep.data s.data.length [] s.data

/-- Python `s.replace('"', "")`: a single-character pattern, so the
replacement is exactly a character filter. -/
def pyRemoveQuotes (s : String) : String := String.mk (s.data.filter (· ≠ '"'))

/-- Python `"".join(l)`. -/
def strJoin (l : List String) : String := l.foldl (· ++ ·) ""

/-- Decimal digit character, `digitChar d = '0' + d` for `d < 10`. -/
def digitChar (n : Nat) : Char := Char.ofNat (48 + n)

/-- Worker for the decimal rendering of a natural number (most significant
digit first); fuel-structural, `fuel = n + 1` is always sufficient. -/
def natDigitsGo : Nat → Nat → List Char
  | 0, _ => []
  | f+1, n => if n < 10 then [digitChar n] else natDigitsGo f (n / 10) ++ [digitChar (n % 10)]

/-- Python `str(n)` for a non-negative int. -/
def pyStrOfNat (n : Nat) : String := String.mk (natDigitsGo (n + 1) n)

/-- Python `str(i)` for an int (canonical decimal form, `-` sign). -/
def pyStrOfInt : Int → String
  | .ofNat n => pyStrOfNat n
  | .negSucc n => "-" ++ pyStrOfNat (n + 1)

/-- Value of a decimal digit character. -/
def digitVal (c : Char) : Option Nat :=
  if '0' ≤ c ∧ c ≤ '9' then some (c.toNat - 48) else none

/-- Left fold of decimal digits; `none` on the first non-digit. -/
def natGo : List Char → Nat → Option Nat
  | [], acc => some acc
  | c :: r, acc =>
    match digitVal c with
    | some d => natGo r (acc * 10 + d)
    | none => none

/-- Python `int(s)` on canonical decimal strings (an optional `-` sign
followed by at least one digit); `none` models the `ValueError` raise.
Python's `int` also accepts surrounding whitespace, `+` and `_` separators,
which never occur in this repository's data. -/
def pyIntOfString (s : String) : Option Int :=
  match s.data with
  | [] => none
  | c :: rest =>
    if c = '-' then
      if rest.isEmpty then none else (natGo rest 0).map (fun n => -(n : Int))
    else (natGo (c :: rest) 0).map (fun n => (n : Int))

/-! ### Record Codec data model (`src/salt/_utils/gdns.py`) -/
def DEFAULT_TTL : Nat := 3600

def SINGLE_RECORD_TYPES : List String := ["CNAME", "TLSA", "TXT"]

def MULTIPLE_RECORD_TYPES : List String := ["A", "AAAA", "CAA", "MX", "NS"]

/-- A value in a `DesiredRecords` host map: single-value record types carry a
scalar string, multi-value record types carry a list of strings. -/
inductive RecValue where
  | single (s : String)
  | multi (l : List String)
deriving DecidableEq

/-- The fixed-shape SOA mapping with fields
`{primary, contact, serial, refresh, retry, expiration, maxcache}`. -/
structure Soa where
  primary : String
  contact : String
  serial : Int
  refresh : Int
  retry : Int
  expiration : Int
  maxcache : Int
deriving DecidableEq

/-- A `DesiredRecords` value: record-type → (host-token → value), as an
insertion-ordered association list (a Python dict). -/
abbrev DesiredRecords := List (String × List (String × RecValue))

/-- The provider-native flat record set `{name, type, ttl, rrdatas}`. -/
structure FlatRecord where
  name : String
  type : String
  ttl : Nat
  rrdatas : List String
deriving DecidableEq

/-- Result of `to_gdns_records`: either the descriptive no-op string returned
for empty input, or the list of flat record sets. -/
inductive EncodeOut where
  | msg (s : String)
  | recs (l : List FlatRecord)
deriving DecidableEq

/-! ### Encoder (`to_gdns_records`, gdns.py lines 25-81) -/
/-- Fully qualified name for a host token (`"@"` denotes the zone apex). -/
def fqdn (dns_name host : String) : String :=
  if host = "@" then dns_name else host ++ "." ++ dns_name

/-- The single SOA flat record emitted when `soa` is present: the seven
fields joined by single spaces, in fixed order. -/
def soaRrdata (s : Soa) : String :=
  s.primary ++ " " ++ s.contact ++ " " ++ pyStrOfInt s.serial ++ " " ++
    pyStrOfInt s.refresh ++ " " ++ pyStrOfInt s.retry ++ " " ++
    pyStrOfInt s.expiration ++ " " ++ pyStrOfInt s.maxcache

def soaRecord (dns_name : String) (s : Soa) : FlatRecord :=
  ⟨dns_name, "SOA", DEFAULT_TTL, [soaRrdata s]⟩

/-- One quote-wrapped TXT chunk. -/
def quoteWrap (l : List Char) : String := String.mk ('"' :: (l ++ ['"']))

/-- The TXT chunking loop (gdns.py lines 63-68): while characters remain,
emit the next 255 characters re-wrapped in double quotes.  Fuel-structural;
one unit of fuel per emitted chunk is ample, `fuel = length` is used. -/
def chunkGo : Nat → List Char → List String
  | 0, _ => []
  | _, [] => []
  | f+1, c :: rest => quoteWrap ((c :: rest).take 255) :: chunkGo f ((c :: rest).drop 255)

def chunk (l : List Char) : List String := chunkGo l.length l

/-- The rrdatas (and implicitly the per-entry control flow) computed for one
`(type, host)` pair, gdns.py lines 57-77.  `none` models an uncaught Python
exception (a TXT value that is not a string has no `.strip`).  A non-TXT
single-value type whose value is a list is also mapped to `none`: Python
appends the list object itself as one rrdata, which lies outside the
`{rrdatas : List String}` schema of a flat record set (no claim depends on
that case).  A multi-value type whose value is a string is iterated
character by character, exactly as Python's `for` over a string. -/
def entryRrdatas (ty : String) (v : RecValue) : Option (List String) :=
  if pyUpper ty ∈ SINGLE_RECORD_TYPES then
    if pyUpper ty = "TXT" then
      match v with
      | .single s =>
        let s1 := pyStripChars ['\\', 'n'] s
        let s2 := pyStripChars ['\n'] s1
        if 256 < s2.length then some (chunk (pyStripChars ['"'] s2).data)
        else some ["\"" ++ s2 ++ "\""]
      | .multi _ => none
    else
      match v with
      | .single s => some [s]
      | .multi _ => none
  else if pyUpper ty ∈ MULTIPLE_RECORD_TYPES then
    match v with
    | .multi l => some l
    | .single s => some (s.data.map (fun c => String.mk [c]))
  else
    some []

/-- The flat record built for one `(type, host)` pair.  Note that the entry
is appended to the output even for an unsupported type (gdns.py line 79 is
outside the `if`/`elif`/`else` of lines 57-77); in that case its rrdatas
stay empty and only a warning is logged. -/
def entryFor (dns_name ty host : String) (v : RecValue) : Option FlatRecord :=
  (entryRrdatas ty v).map (fun rr => ⟨fqdn dns_name host, pyUpper ty, DEFAULT_TTL, rr⟩)

/-- Inner loop of the encoder over one type's host map. -/
def hostsLoop (dns_name ty : String) : List (String × RecValue) → Option (List FlatRecord)
  | [] => some []
  | (host, v) :: rest =>
    match entryFor dns_name ty host v with
    | some e =>
      match hostsLoop dns_name ty rest with
      | some more => some (e :: more)
      | none => none
    | none => none

/-- Outer loop of the encoder over the record types. -/
def recsLoop (dns_name : String) : DesiredRecords → Option (List FlatRecord)
  | [] => some []
  | (ty, hosts) :: rest =>
    match hostsLoop dns_name ty hosts with
    | some this =>
      match recsLoop dns_name rest with
      | some more => some (this ++ more)
      | none => none
    | none => none

/-- Encoder `to_gdns_records(dns_name, records, soa)` (gdns.py lines 25-81).  When
both inputs are empty the descriptive no-op string is returned; otherwise
the SOA record (if any) is emitted first, followed by the per-type,
per-host record sets in input order. -/
def to_gdns_records (dns_name : String) (records : DesiredRecords) (soa : Option Soa) :
    Option EncodeOut :=
  if records.isEmpty ∧ soa.isNone then
    some (.msg "Records and SOA are both empty: nothing to do!")
  else
    match recsLoop dns_name records with
    | some entries =>
      some (.recs ((match soa with
        | some s => [soaRecord dns_name s]
        | none => []) ++ entries))
    | none => none

/-! ### Decoder (`from_gdns_records`, gdns.py lines 98-141) -/
/-- Errors raised by the decoder: `malformedSoa` is the `ValueError` from
unpacking an SOA rrdata that does not split into exactly seven tokens,
`badInt` the `ValueError` from `int()` on a non-numeric token, and
`indexError` the `IndexError` from `rrdatas[0]` on an empty rrdata list. -/
inductive DecErr where
  | malformedSoa
  | badInt
  | indexError
deriving DecidableEq

/-- Result of `from_gdns_records`: the `soa` key is present only when an SOA
record was seen, and the `records` key only when a non-SOA record was seen
(gdns.py lines 136-139). -/
structure DecodeOut where
  soa : Option Soa
  records : Option DesiredRecords
deriving DecidableEq

/-- First-match lookup in an association list (Python dict lookup). -/
def lookupA {α : Type} : List (String × α) → String → Option α
  | [], _ => none
  | (k', v) :: r, k => if k' = k then some v else lookupA r k

/-- Python dict assignment `d[k] = v`: replace the first binding of `k` in
place, or append a new binding at the end. -/
def mapAssign {α : Type} : List (String × α) → String → α → List (String × α)
  | [], k, v => [(k, v)]
  | (k', v') :: r, k, v => if k' = k then (k, v) :: r else (k', v') :: mapAssign r k v

/-- gdns.py lines 115-116: `if not our_records["records"].get(type, None):
our_records["records"][type] = {}` — (re)create the type's host map when it
is absent or empty. -/
def ensureType (recs : DesiredRecords) (ty : String) : DesiredRecords :=
  match lookupA recs ty with
  | some (_ :: _) => recs
  | _ => mapAssign recs ty []

/-- Python `our_records["records"][type][host] = v`: update the (present) type's
host map.  The type key is always present here, having been ensured on the
preceding line of the source; on an absent key this is the identity. -/
def setRec (recs : DesiredRecords) (ty host : String) (v : RecValue) : DesiredRecords :=
  match recs with
  | [] => []
  | (k, m) :: rest =>
    if k = ty then (k, mapAssign m host v) :: rest else (k, m) :: setRec rest ty host v

/-- SOA rrdata processing (gdns.py lines 102-113): split the single rrdata
on spaces into exactly seven fields, parsing the five numeric ones. -/
def decodeSoaFields (r0 : String) : Except DecErr Soa :=
  match pySplit r0 " " with
  | [p, c, t1, t2, t3, t4, t5] =>
    match pyIntOfString t1, pyIntOfString t2, pyIntOfString t3,
        pyIntOfString t4, pyIntOfString t5 with
    | some i1, some i2, some i3, some i4, some i5 => .ok ⟨p, c, i1, i2, i3, i4, i5⟩
    | _, _, _, _, _ => .error .badInt
  | _ => .error .malformedSoa

/-- The decoder's main loop over the flat records, threading the accumulated
soa and records state. -/
def fromGo (dns_name : String) :
    List FlatRecord → Option Soa → DesiredRecords → Except DecErr (Option Soa × DesiredRecords)
  | [], soaAcc, recAcc => .ok (soaAcc, recAcc)
  | r :: rest, soaAcc, recAcc =>
    if r.type = "SOA" then
      match r.rrdatas with
      | [] => .error .indexError
      | r0 :: _ =>
        match decodeSoaFields r0 with
        | .ok s => fromGo dns_name rest (some s) recAcc
        | .error e => .error e
    else
      let recAcc1 := ensureType recAcc r.type
      let host := if r.name = dns_name then "@" else pyReplaceDel r.name ("." ++ dns_name)
      if r.type ∈ SINGLE_RECORD_TYPES then
        if 1 < r.rrdatas.length then
          fromGo dns_name rest soaAcc
            (setRec recAcc1 r.type host (.single (pyRemoveQuotes (strJoin r.rrdatas))))
        else
          match r.rrdatas with
          | [] => .error .indexError
          | r0 :: _ =>
            fromGo dns_name rest soaAcc (setRec recAcc1 r.type host (.single (pyRemoveQuotes r0)))
      else if r.type ∈ MULTIPLE_RECORD_TYPES then
        fromGo dns_name rest soaAcc (setRec recAcc1 r.type host (.multi r.rrdatas))
      else
        fromGo dns_name rest soaAcc recAcc1

/-- Decoder `from_gdns_records(dns_name, gdns_records)` (gdns.py lines 98-141). -/
def from_gdns_records (dns_name : String) (gdns_records : List FlatRecord) :
    Except DecErr DecodeOut :=
  match fromGo dns_name gdns_records none [] with
  | .ok (s, r) => .ok ⟨s, if r.isEmpty then none else some r⟩
  | .error e => .error e

/-! ### State Differ data model (`src/salt/_states/kubernetes.py`) -/
mutual
/-- A Python value tree as compared by `_is_subset`: scalars (ints, strings,
`None`), string-keyed mappings, and sequences. -/
inductive PTree where
  | int (i : Int)
  | str (s : String)
  | null
  | map (l : PDict)
  | seq (l : PList)
deriving DecidableEq
/-- An insertion-ordered string-keyed mapping of trees. -/
inductive PDict where
  | nil
  | cons (k : String) (v : PTree) (rest : PDict)
deriving DecidableEq
/-- A sequence of trees. -/
inductive PList where
  | nil
  | cons (v : PTree) (rest : PList)
deriving DecidableEq
end

mutual
/-- Size of a tree (used as recursion fuel for the differ). -/
def szT : PTree → Nat
  | .int _ => 1
  | .str _ => 1
  | .null => 1
  | .map l => szD l + 1
  | .seq l => szL l + 1
def szD : PDict → Nat
  | .nil => 0
  | .cons _ v r => szT v + szD r + 1
def szL : PList → Nat
  | .nil => 0
  | .cons v r => szT v + szL r + 1
end

/-- The Python exceptions observable in `_is_subset`: `KeyError` and
`TypeError` from `superset[key]` lookups (caught in the mapping branch),
`IndexError` from `superset[index]` in the sequence branch (never caught),
and the `UnboundLocalError` raised by `return changes` when no branch of the
scalar case assigned `changes`. -/
inductive PyErr where
  | keyError
  | typeError
  | indexError
  | unboundLocal
deriving DecidableEq

/-- The `changes` dict `{"new": ..., "old": ...}` returned by `_is_subset`. -/
structure Delta where
  new : PTree
  old : PTree
deriving DecidableEq

/-- Python truthiness of the values stored under `changes["new"]`. -/
def truthy : PTree → Bool
  | .int i => i != 0
  | .str s => s != ""
  | .null => false
  | .map .nil => false
  | .map _ => true
  | .seq .nil => false
  | .seq _ => true

def lookupD : PDict → String → Option PTree
  | .nil, _ => none
  | .cons k' v r, k => if k' = k then some v else lookupD r k

/-- Python `superset[key]` for a string key: a mapping yields the value or
`KeyError`; a sequence, a string, an int or `None` raise `TypeError`
(a list or string cannot be indexed by a string, an int or `None` cannot be
subscripted). -/
def pyLookup (sup : PTree) (k : String) : Except PyErr PTree :=
  match sup with
  | .map l =>
    match lookupD l k with
    | some v => .ok v
    | none => .error .keyError
  | _ => .error .typeError

def idxL : PList → Nat → Option PTree
  | .nil, _ => none
  | .cons v _, 0 => some v
  | .cons _ r, n+1 => idxL r n

/-- Python `superset[index]` for a non-negative int index: a sequence yields the
element or `IndexError`; a string yields its one-character substring or
`IndexError`; a (string-keyed) mapping raises `KeyError`; an int or `None`
raises `TypeError`. -/
def pyIndex (sup : PTree) (i : Nat) : Except PyErr PTree :=
  match sup with
  | .seq l =>
    match idxL l i with
    | some v => .ok v
    | none => .error .indexError
  | .str s =>
    match s.data.get? i with
    | some c => .ok (.str (String.mk [c]))
    | none => .error .indexError
  | .map _ => .error .keyError
  | _ => .error .typeError

/-- Python dict assignment on a `PDict` (replace in place or append). -/
def dAssign : PDict → String → PTree → PDict
  | .nil, k, v => .cons k v .nil
  | .cons k' v' r, k, v => if k' = k then .cons k v r else .cons k' v' (dAssign r k v)

/-- Python `x in l` for a list superset (structural `==`). -/
def pmem (s : PTree) : PList → Bool
  | .nil => false
  | .cons v r => (s = v) || pmem s r

/-- The mapping branch of `_is_subset` (kubernetes.py lines 192-204): iterate
the subset's bindings; an `ok` child delta is merged when its `new` is
truthy; `KeyError` stores the subset value as new with `old[key] = None`;
`TypeError` stores the subset value as new and rebinds `old` to the whole
superset.  The merge assignments happen inside the `try`, so when `old` is
no longer a dict the `changes["old"][key] = ...` itself raises `TypeError`
and is caught by the same handler; an exception raised inside the `KeyError`
handler propagates. -/
def dictGo (rec : PTree → PTree → Except PyErr Delta) (sup : PTree) :
    PDict → PDict → PTree → Except PyErr Delta
  | .nil, new, old => .ok ⟨.map new, old⟩
  | .cons k v rest, new, old =>
    match pyLookup sup k >>= fun w => rec v w with
    | .ok cmp =>
      if truthy cmp.new then
        match old with
        | .map ol => dictGo rec sup rest (dAssign new k cmp.new) (.map (dAssign ol k cmp.old))
        | _ => dictGo rec sup rest (dAssign new k v) sup
      else dictGo rec sup rest new old
    | .error .keyError =>
      match old with
      | .map ol => dictGo rec sup rest (dAssign new k v) (.map (dAssign ol k .null))
      | _ => .error .typeError
    | .error .typeError => dictGo rec sup rest (dAssign new k v) sup
    | .error e => .error e

def pRev : PList → PList → PList
  | .nil, acc => acc
  | .cons v r, acc => pRev r (.cons v acc)

/-- The sequence branch of `_is_subset` (kubernetes.py lines 205-211):
compare element by element against `superset[index]`; exceptions are not
caught here and propagate. -/
def seqGo (rec : PTree → PTree → Except PyErr Delta) (sup : PTree) :
    PList → Nat → PList → PList → Except PyErr Delta
  | .nil, _, news, olds => .ok ⟨.seq (pRev news .nil), .seq (pRev olds .nil)⟩
  | .cons v rest, i, news, olds =>
    match pyIndex sup i >>= fun w => rec v w with
    | .ok cmp =>
      if truthy cmp.new then seqGo rec sup rest (i+1) (.cons cmp.new news) (.cons cmp.old olds)
      else seqGo rec sup rest (i+1) news olds
    | .error e => .error e

/-- The scalar case of `_is_subset` (kubernetes.py lines 212-224).  When the
superset is a list containing the scalar, no branch assigns `changes` and
`return changes` raises `UnboundLocalError`. -/
def scalarCmp (s sup : PTree) : Except PyErr Delta :=
  match sup with
  | .map _ => .ok ⟨s, sup⟩
  | .seq l => if pmem s l then .error .unboundLocal else .ok ⟨s, sup⟩
  | t => if s ≠ t then .ok ⟨s, sup⟩ else .ok ⟨.map .nil, .map .nil⟩

/-- Worker for `_is_subset` with explicit structural fuel; one unit of fuel per level of
recursion into the subset, so any fuel of at least `szT sub` computes the
function.  The value semantics taken here reads `changes["old"] = superset`
as binding the superset value (the source aliases the superset object and
may mutate it through that alias; the returned value is the same for
tree-shaped, unaliased inputs, which is all a Python caller can observe of
the result). -/
def isSubsetF : Nat → PTree → PTree → Except PyErr Delta
  | 0, _, _ => .error .typeError
  | f+1, sub, sup =>
    match sub with
    | .map l => dictGo (isSubsetF f) sup l .nil (.map .nil)
    | .seq l => seqGo (isSubsetF f) sup l 0 .nil .nil
    | .int i => scalarCmp (.int i) sup
    | .str s => scalarCmp (.str s) sup
    | .null => scalarCmp .null sup

/-- Differ `_is_subset(subset, superset)` (kubernetes.py lines 190-224). -/
def is_subset (sub sup : PTree) : Except PyErr Delta := isSubsetF (szT sub) sub sup

/-- Join a token list with single-space separators. -/
def joinSp : List (List Char) → List Char
  | [] => []
  | [t] => t
  | t :: ts => t ++ ' ' :: joinSp ts

/-! ### Round-trip machinery for the codec -/
/-- The rrdatas the encoder emits for one well-shaped supported value. -/
def rrFor : RecValue → List String
  | .single s => [s]
  | .multi l => l

/-- The flat records the encoder emits for one type's host map. -/
def hostsFlat (dns_name ty : String) (hosts : List (String × RecValue)) : List FlatRecord :=
  hosts.map (fun q => ⟨fqdn dns_name q.1, ty, DEFAULT_TTL, rrFor q.2⟩)

/-- The flat records the encoder emits for a whole `DesiredRecords` value. -/
def encodeFlat (dns_name : String) (R : DesiredRecords) : List FlatRecord :=
  (R.map (fun p => hostsFlat dns_name p.1 p.2)).flatten

/-- Key uniqueness of an association list. -/
def nodupKeys {α : Type} : List (String × α) → Bool
  | [] => true
  | (k, _) :: r => !(r.map Prod.fst).contains k && nodupKeys r

/-- A value fits its record type: single-value types carry a quote-free
string, multi-value types carry a list. -/
def valOk (ty : String) (v : RecValue) : Bool :=
  match v with
  | .single s => SINGLE_RECORD_TYPES.contains ty && !(s.data.contains '"')
  | .multi _ => MULTIPLE_RECORD_TYPES.contains ty

/-- The host token survives the decoder's name computation: either the apex
token, or a token whose qualified name has exactly its `"." ++ zone` suffix
removed by `str.replace`. -/
def hostOk (dns_name host : String) : Bool :=
  host == "@" || pyReplaceDel (host ++ "." ++ dns_name) ("." ++ dns_name) == host

/-- Well-formedness of a `DesiredRecords` value for the round-trip: nonempty,
canonical (upper-case, supported, non-TXT) type keys without duplicates,
nonempty host maps without duplicate hosts, values shaped for their type,
and host tokens that decode back. -/
def GoodRecords (dns_name : String) (R : DesiredRecords) : Bool :=
  !R.isEmpty && nodupKeys R &&
    R.all (fun p => p.1 != "TXT" && !p.2.isEmpty && nodupKeys p.2 &&
      p.2.all (fun q => valOk p.1 q.2 && hostOk dns_name q.1))

/-! ### Differ helper functions and well-formedness -/
def plLen : PList → Nat
  | .nil => 0
  | .cons _ r => plLen r + 1

def plAppend : PList → PList → PList
  | .nil, l => l
  | .cons v r, l => .cons v (plAppend r l)

def plDrop : Nat → PList → PList
  | 0, l => l
  | _+1, .nil => .nil
  | n+1, .cons _ r => plDrop n r

def plTail : PList → PList
  | .nil => .nil
  | .cons _ r => r

def dHasKey : PDict → String → Bool
  | .nil, _ => false
  | .cons k' _ r, k => k' == k || dHasKey r k

/-- Key uniqueness of a tree-dict. -/
def dKeysNodup : PDict → Bool
  | .nil => true
  | .cons k _ r => !dHasKey r k && dKeysNodup r

mutual
/-- Well-formedness of a Python tree: every mapping node has unique keys
(guaranteed for every value built by the Python runtime). -/
def wfT : PTree → Bool
  | .int _ => true
  | .str _ => true
  | .null => true
  | .map l => dKeysNodup l && wfD l
  | .seq l => wfL l
def wfD : PDict → Bool
  | .nil => true
  | .cons _ v r => wfT v && wfD r
def wfL : PList → Bool
  | .nil => true
  | .cons v r => wfT v && wfL r
end

/-- The empty delta value `_is_subset` produces for an unchanged subtree:
`{}`/`[]` according to the subset's shape. -/
def emptyLike : PTree → PTree
  | .map _ => .map .nil
  | .seq _ => .seq .nil
  | _ => .map .nil

/-- Pointwise predicate over the bindings of a tree-dict. -/
def dForall (P : String → PTree → Prop) : PDict → Prop
  | .nil => True
  | .cons k v r => P k v ∧ dForall P r

/-- Pointwise predicate over the elements of a tree-list. -/
def lForall (P : PTree → Prop) : PList → Prop
  | .nil => True
  | .cons v r => P v ∧ lForall P r

/-! ### Concrete data used by the claim witnesses and counterexamples -/
def aChars (n : Nat) : List Char := List.replicate n 'a'

def aStr (n : Nat) : String := String.mk (aChars n)

def soaEx : Soa := ⟨"ns1.example.com.", "admin.example.com.", 2024, 3600, 600, 86400, 300⟩

def recsEx : DesiredRecords :=
  [("A", [("@", .multi ["1.2.3.4"]), ("www", .multi ["1.2.3.4", "5.6.7.8"])]),
   ("CNAME", [("alias", .single "target.example.com.")])]

/-! ### Lemmas about the embedded Python primitives -/
theorem natGo_append (l₁ l₂ : List Char) (acc : Nat) :
    natGo (l₁ ++ l₂) acc =
      match natGo l₁ acc with
      | some m => natGo l₂ m
      | none => none := by
  induction l₁ generalizing acc with
  | nil => simp [natGo]
  | cons c r ih =>
    simp only [List.cons_append, natGo]
    cases digitVal c with
    | some d => simp [ih]
    | none => simp

theorem digitVal_digitChar (d : Nat) (h : d < 10) : digitVal (digitChar d) = some d := by
  interval_cases d <;> rfl

theorem digitChar_ne_space (d : Nat) (h : d < 10) : digitChar d ≠ ' ' := by
  interval_cases d <;> decide

theorem digitChar_ne_dash (d : Nat) (h : d < 10) : digitChar d ≠ '-' := by
  interval_cases d <;> decide

theorem mem_natDigitsGo (f n : Nat) (c : Char) (hc : c ∈ natDigitsGo f n) :
    ∃ d, d < 10 ∧ c = digitChar d := by
  induction f generalizing n with
  | zero => simp [natDigitsGo] at hc
  | succ f ih =>
    simp only [natDigitsGo] at hc
    by_cases h : n < 10
    · simp [h] at hc
      exact ⟨n, h, hc⟩
    · simp [h] at hc
      rcases hc with hc | hc
      · exact ih _ hc
      · exact ⟨n % 10, Nat.mod_lt _ (by omega), hc⟩

theorem natDigitsGo_ne_nil (f n : Nat) (hf : 0 < f) : natDigitsGo f n ≠ [] := by
  cases f with
  | zero => omega
  | succ f =>
    simp only [natDigitsGo]
    by_cases h : n < 10 <;> simp [h]

theorem natGo_natDigitsGo (f n : Nat) (h : n < 10 ^ f) : natGo (natDigitsGo f n) 0 = some n := by
  induction f generalizing n with
  | zero =>
    simp at h
    subst h
    rfl
  | succ f ih =>
    simp only [natDigitsGo]
    by_cases hn : n < 10
    · simp [hn, natGo, digitVal_digitChar n hn]
    · simp only [hn, if_false]
      rw [natGo_append]
      have hdiv : n / 10 < 10 ^ f := by
        rw [pow_succ] at h
        omega
      rw [ih _ hdiv]
      simp [natGo, digitVal_digitChar (n % 10) (Nat.mod_lt _ (by omega))]
      omega

theorem pyIntOfString_pyStrOfNat (n : Nat) : pyIntOfString (pyStrOfNat n) = some (n : Int) := by
  have hlt : n < 10 ^ (n + 1) :=
    lt_of_lt_of_le (Nat.lt_pow_self (by omega) n) (Nat.pow_le_pow_right (by omega) (by omega))
  have hne : natDigitsGo (n + 1) n ≠ [] := natDigitsGo_ne_nil _ _ (by omega)
  obtain ⟨c, t, hct⟩ := List.exists_cons_of_ne_nil hne
  have hdig := mem_natDigitsGo (n + 1) n c (by rw [hct]; exact List.mem_cons_self _ _)
  obtain ⟨d, hd, rfl⟩ := hdig
  have hgo := natGo_natDigitsGo (n + 1) n hlt
  rw [hct] at hgo
  simp only [pyIntOfString, pyStrOfNat, hct, digitChar_ne_dash d hd, if_false]
  rw [hgo]
  rfl

theorem pyIntOfString_pyStrOfInt (i : Int) : pyIntOfString (pyStrOfInt i) = some i := by
  cases i with
  | ofNat n => exact pyIntOfString_pyStrOfNat n
  | negSucc n =>
    have hlt : n + 1 < 10 ^ (n + 2) :=
      lt_of_lt_of_le (Nat.lt_pow_self (by omega) (n + 1)) (Nat.pow_le_pow_right (by omega) (by omega))
    have hne : natDigitsGo (n + 2) (n + 1) ≠ [] := natDigitsGo_ne_nil _ _ (by omega)
    have hdata : (pyStrOfInt (.negSucc n)).data = '-' :: natDigitsGo (n + 2) (n + 1) := by
      simp [pyStrOfInt, pyStrOfNat]
    have hje : (natDigitsGo (n + 2) (n + 1)).isEmpty = false := by
      cases h : natDigitsGo (n + 2) (n + 1) with
      | nil => exact absurd h hne
      | cons a b => rfl
    simp only [pyIntOfString, hdata, if_pos rfl, hje, Bool.false_eq_true, if_false,
      natGo_natDigitsGo _ _ hlt, Option.map_some']
    rw [Int.negSucc_eq]
    norm_num

theorem pyStrOfInt_no_space (i : Int) (c : Char) (hc : c ∈ (pyStrOfInt i).data) : c ≠ ' ' := by
  cases i with
  | ofNat n =>
    simp only [pyStrOfInt, pyStrOfNat] at hc
    obtain ⟨d, hd, rfl⟩ := mem_natDigitsGo _ _ _ hc
    exact digitChar_ne_space d hd
  | negSucc n =>
    have hdata : (pyStrOfInt (.negSucc n)).data = '-' :: natDigitsGo (n + 2) (n + 1) := by
      simp [pyStrOfInt, pyStrOfNat]
    rw [hdata] at hc
    rcases List.mem_cons.mp hc with rfl | hc2
    · decide
    · obtain ⟨d, hd, rfl⟩ := mem_natDigitsGo _ _ _ hc2
      exact digitChar_ne_space d hd

theorem splitGo_end (f : Nat) (acc : List Char) :
    splitGo [' '] f acc [] = [String.mk acc.reverse] := by
  cases f <;> simp [splitGo]

theorem splitGo_sep (acc l : List Char) :
    splitGo [' '] (l.length + 1) acc (' ' :: l) = String.mk acc.reverse :: splitGo [' '] l.length [] l := by
  simp [splitGo]

theorem splitGo_chars (t : List Char) (h : ∀ c ∈ t, c ≠ ' ') (acc l : List Char) :
    splitGo [' '] (t ++ l).length acc (t ++ l) = splitGo [' '] l.length (t.reverse ++ acc) l := by
  induction t generalizing acc with
  | nil => simp
  | cons c t ih =>
    have hc : c ≠ ' ' := h c (List.mem_cons_self _ _)
    have : ((c :: t) ++ l).length = (t ++ l).length + 1 := by simp
    rw [this]
    simp only [List.cons_append, splitGo, List.length_cons, List.take_succ_cons, List.take_zero]
    rw [if_neg (by simpa using hc)]
    show splitGo [' '] (t ++ l).length (c :: acc) (t ++ l) = _
    rw [ih (fun x hx => h x (List.mem_cons_of_mem _ hx))]
    simp

theorem splitGo_tokens (t : List Char) (ts : List (List Char))
    (h : ∀ u ∈ t :: ts, ∀ c ∈ u, c ≠ ' ') (acc : List Char) :
    splitGo [' '] (joinSp (t :: ts)).length acc (joinSp (t :: ts)) =
      String.mk (acc.reverse ++ t) :: ts.map (fun u => String.mk u) := by
  induction ts generalizing t acc with
  | nil =>
    have : joinSp [t] = t ++ [] := by simp [joinSp]
    rw [this, splitGo_chars t (h t (List.mem_cons_self _ _)) acc []]
    rw [splitGo_end]
    simp
  | cons u ts ih =>
    have hj : joinSp (t :: u :: ts) = t ++ ' ' :: joinSp (u :: ts) := by
      cases ts <;> simp [joinSp]
    rw [hj, splitGo_chars t (h t (List.mem_cons_self _ _)) acc]
    have : (' ' :: joinSp (u :: ts)).length = (joinSp (u :: ts)).length + 1 := by simp
    rw [this, splitGo_sep]
    rw [ih u (fun x hx c hc => h x (List.mem_cons_of_mem _ hx) c hc) []]
    simp

theorem pySplit_soaRrdata (S : Soa) (hp : ∀ c ∈ S.primary.data, c ≠ ' ')
    (hc : ∀ c ∈ S.contact.data, c ≠ ' ') :
    pySplit (soaRrdata S) " " =
      [S.primary, S.contact, pyStrOfInt S.serial, pyStrOfInt S.refresh, pyStrOfInt S.retry,
        pyStrOfInt S.expiration, pyStrOfInt S.maxcache] := by
  have hdata : (soaRrdata S).data =
      joinSp [S.primary.data, S.contact.data, (pyStrOfInt S.serial).data,
        (pyStrOfInt S.refresh).data, (pyStrOfInt S.retry).data,
        (pyStrOfInt S.expiration).data, (pyStrOfInt S.maxcache).data] := by
    simp [soaRrdata, joinSp, String.data_append]
  have hall : ∀ u ∈ [S.primary.data, S.contact.data, (pyStrOfInt S.serial).data,
      (pyStrOfInt S.refresh).data, (pyStrOfInt S.retry).data,
      (pyStrOfInt S.expiration).data, (pyStrOfInt S.maxcache).data], ∀ c ∈ u, c ≠ ' ' := by
    intro u hu
    simp only [List.mem_cons, List.not_mem_nil, or_false] at hu
    rcases hu with rfl | rfl | rfl | rfl | rfl | rfl | rfl
    · exact hp
    · exact hc
    all_goals exact fun c hcm => pyStrOfInt_no_space _ c hcm
  show splitGo [' '] (soaRrdata S).data.length [] (soaRrdata S).data = _
  rw [hdata, splitGo_tokens _ _ hall []]
  simp

theorem decodeSoaFields_soaRrdata (S : Soa) (hp : ∀ c ∈ S.primary.data, c ≠ ' ')
    (hc : ∀ c ∈ S.contact.data, c ≠ ' ') :
    decodeSoaFields (soaRrdata S) = .ok S := by
  rw [decodeSoaFields, pySplit_soaRrdata S hp hc]
  simp [pyIntOfString_pyStrOfInt]

theorem nodupKeys_iff {α : Type} (l : List (String × α)) :
    nodupKeys l = true ↔ (l.map Prod.fst).Nodup := by
  induction l with
  | nil => simp [nodupKeys]
  | cons p r ih =>
    obtain ⟨k, v⟩ := p
    rw [nodupKeys, Bool.and_eq_true, ih, List.map_cons, List.nodup_cons]
    constructor
    · rintro ⟨h1, h2⟩
      refine ⟨fun hmem => ?_, h2⟩
      simp at h1
      rw [List.mem_map] at hmem
      obtain ⟨q, hq, rfl⟩ := hmem
      exact h1 q.2 (by rw [Prod.mk.eta]; exact hq)
    · rintro ⟨h1, h2⟩
      refine ⟨?_, h2⟩
      simp
      intro x hx
      exact h1 (List.mem_map.mpr ⟨(k, x), hx, rfl⟩)

theorem lookupA_eq_none {α : Type} (l : List (String × α)) (k : String)
    (h : ∀ p ∈ l, p.1 ≠ k) : lookupA l k = none := by
  induction l with
  | nil => rfl
  | cons p r ih =>
    simp only [lookupA, if_neg (h p (List.mem_cons_self _ _))]
    exact ih (fun q hq => h q (List.mem_cons_of_mem _ hq))

theorem mapAssign_absent {α : Type} (l : List (String × α)) (k : String) (v : α)
    (h : ∀ p ∈ l, p.1 ≠ k) : mapAssign l k v = l ++ [(k, v)] := by
  induction l with
  | nil => rfl
  | cons p r ih =>
    obtain ⟨k', v'⟩ := p
    simp only [mapAssign, if_neg (h (k', v') (List.mem_cons_self _ _)), List.cons_append,
      List.cons.injEq, true_and]
    exact ih (fun q hq => h q (List.mem_cons_of_mem _ hq))

theorem lookupA_append_absent {α : Type} (l₁ l₂ : List (String × α)) (k : String)
    (h : ∀ p ∈ l₁, p.1 ≠ k) : lookupA (l₁ ++ l₂) k = lookupA l₂ k := by
  induction l₁ with
  | nil => rfl
  | cons p r ih =>
    simp only [List.cons_append, lookupA, if_neg (h p (List.mem_cons_self _ _))]
    exact ih (fun q hq => h q (List.mem_cons_of_mem _ hq))

theorem mapAssign_append_absent {α : Type} (l₁ l₂ : List (String × α)) (k : String) (v : α)
    (h : ∀ p ∈ l₁, p.1 ≠ k) : mapAssign (l₁ ++ l₂) k v = l₁ ++ mapAssign l₂ k v := by
  induction l₁ with
  | nil => rfl
  | cons p r ih =>
    obtain ⟨k', v'⟩ := p
    simp only [List.cons_append, mapAssign, if_neg (h (k', v') (List.mem_cons_self _ _)),
      List.cons.injEq, true_and]
    exact ih (fun q hq => h q (List.mem_cons_of_mem _ hq))

theorem setRec_append_absent (l₁ l₂ : DesiredRecords) (ty host : String) (v : RecValue)
    (h : ∀ p ∈ l₁, p.1 ≠ ty) : setRec (l₁ ++ l₂) ty host v = l₁ ++ setRec l₂ ty host v := by
  induction l₁ with
  | nil => rfl
  | cons p r ih =>
    obtain ⟨k', m⟩ := p
    simp only [List.cons_append, setRec, if_neg (h (k', m) (List.mem_cons_self _ _)),
      List.cons.injEq, true_and]
    exact ih (fun q hq => h q (List.mem_cons_of_mem _ hq))

theorem ensureType_state (front : DesiredRecords) (ty : String)
    (done : List (String × RecValue)) (h : ∀ p ∈ front, p.1 ≠ ty) :
    ensureType (front ++ [(ty, done)]) ty = front ++ [(ty, done)] := by
  have hl : lookupA (front ++ [(ty, done)]) ty = some done := by
    rw [lookupA_append_absent _ _ _ h]
    simp [lookupA]
  cases done with
  | nil =>
    rw [ensureType, hl]
    rw [mapAssign_append_absent _ _ _ _ h]
    simp [mapAssign]
  | cons q d =>
    rw [ensureType, hl]

theorem ensureType_new (recAcc : DesiredRecords) (ty : String)
    (h : ∀ p ∈ recAcc, p.1 ≠ ty) : ensureType recAcc ty = recAcc ++ [(ty, [])] := by
  simp only [ensureType, lookupA_eq_none _ _ h]
  exact mapAssign_absent _ _ _ h

theorem setRec_state (front : DesiredRecords) (ty : String)
    (done : List (String × RecValue)) (host : String) (v : RecValue)
    (h : ∀ p ∈ front, p.1 ≠ ty) :
    setRec (front ++ [(ty, done)]) ty host v = front ++ [(ty, mapAssign done host v)] := by
  rw [setRec_append_absent _ _ _ _ _ h]
  simp [setRec]

theorem pyUpper_single (ty : String) (h : ty ∈ SINGLE_RECORD_TYPES) : pyUpper ty = ty := by
  simp [SINGLE_RECORD_TYPES] at h
  rcases h with rfl | rfl | rfl <;> rfl

theorem pyUpper_multi (ty : String) (h : ty ∈ MULTIPLE_RECORD_TYPES) : pyUpper ty = ty := by
  simp [MULTIPLE_RECORD_TYPES] at h
  rcases h with rfl | rfl | rfl | rfl | rfl <;> rfl

theorem single_not_multi (ty : String) (h : ty ∈ SINGLE_RECORD_TYPES) :
    ty ∉ MULTIPLE_RECORD_TYPES := by
  simp [SINGLE_RECORD_TYPES] at h
  rcases h with rfl | rfl | rfl <;> decide

theorem multi_not_single (ty : String) (h : ty ∈ MULTIPLE_RECORD_TYPES) :
    ty ∉ SINGLE_RECORD_TYPES := by
  simp [MULTIPLE_RECORD_TYPES] at h
  rcases h with rfl | rfl | rfl | rfl | rfl <;> decide

theorem single_ne_soa (ty : String) (h : ty ∈ SINGLE_RECORD_TYPES) : ty ≠ "SOA" := by
  simp [SINGLE_RECORD_TYPES] at h
  rcases h with rfl | rfl | rfl <;> decide

theorem multi_ne_soa (ty : String) (h : ty ∈ MULTIPLE_RECORD_TYPES) : ty ≠ "SOA" := by
  simp [MULTIPLE_RECORD_TYPES] at h
  rcases h with rfl | rfl | rfl | rfl | rfl <;> decide

theorem entryFor_single (dns_name ty host s : String) (h1 : ty ∈ SINGLE_RECORD_TYPES)
    (h2 : ty ≠ "TXT") :
    entryFor dns_name ty host (.single s) = some ⟨fqdn dns_name host, ty, DEFAULT_TTL, [s]⟩ := by
  rw [entryFor, entryRrdatas, pyUpper_single ty h1, if_pos h1, if_neg h2]
  rfl

theorem entryFor_multi (dns_name ty host : String) (l : List String)
    (h1 : ty ∈ MULTIPLE_RECORD_TYPES) :
    entryFor dns_name ty host (.multi l) = some ⟨fqdn dns_name host, ty, DEFAULT_TTL, l⟩ := by
  rw [entryFor, entryRrdatas, pyUpper_multi ty h1, if_neg (multi_not_single ty h1), if_pos h1]
  rfl

theorem hostsLoop_good (dns_name ty : String) (hosts : List (String × RecValue))
    (h : ∀ q ∈ hosts, entryFor dns_name ty q.1 q.2 =
      some ⟨fqdn dns_name q.1, ty, DEFAULT_TTL, rrFor q.2⟩) :
    hostsLoop dns_name ty hosts = some (hostsFlat dns_name ty hosts) := by
  induction hosts with
  | nil => rfl
  | cons q rest ih =>
    obtain ⟨host, v⟩ := q
    rw [hostsLoop, h (host, v) (List.mem_cons_self _ _)]
    rw [ih (fun q hq => h q (List.mem_cons_of_mem _ hq))]
    rfl

theorem recsLoop_good (dns_name : String) (R : DesiredRecords)
    (h : ∀ p ∈ R, ∀ q ∈ p.2, valOk p.1 q.2 = true ∧ p.1 ≠ "TXT") :
    recsLoop dns_name R = some (encodeFlat dns_name R) := by
  induction R with
  | nil => rfl
  | cons p rest ih =>
    obtain ⟨ty, hosts⟩ := p
    rw [recsLoop, hostsLoop_good dns_name ty hosts ?_]
    · rw [ih (fun p hp q hq => h p (List.mem_cons_of_mem _ hp) q hq)]
      rfl
    · intro q hq
      obtain ⟨hv, htxt⟩ := h (ty, hosts) (List.mem_cons_self _ _) q hq
      match hvq : q.2 with
      | .single s =>
        rw [hvq] at hv
        simp only [valOk, Bool.and_eq_true] at hv
        have hmem : ty ∈ SINGLE_RECORD_TYPES := by
          have := hv.1
          simpa using this
        rw [entryFor_single dns_name ty q.1 s hmem htxt]
        rfl
      | .multi l =>
        rw [hvq] at hv
        simp only [valOk] at hv
        have hmem : ty ∈ MULTIPLE_RECORD_TYPES := by simpa using hv
        rw [entryFor_multi dns_name ty q.1 l hmem]
        rfl

theorem qualified_ne_zone (dns_name host : String) : host ++ "." ++ dns_name ≠ dns_name := by
  intro h
  have hlen := congrArg String.length h
  rw [String.length_append, String.length_append] at hlen
  have hdot : (".").length = 1 := rfl
  omega

theorem pyRemoveQuotes_eq_self (s : String) (h : '"' ∉ s.data) : pyRemoveQuotes s = s := by
  rw [pyRemoveQuotes, List.filter_eq_self.mpr]
  · intro c hc
    simp only [ne_eq, decide_eq_true_eq]
    intro hq
    subst hq
    exact h hc
  -- the remaining goal identifies `String.mk s.data` with `s`

theorem fromGo_step (dns_name ty host : String) (v : RecValue) (rest : List FlatRecord)
    (soaAcc : Option Soa) (recAcc : DesiredRecords)
    (hval : valOk ty v = true) (hhost : hostOk dns_name host = true) :
    fromGo dns_name (⟨fqdn dns_name host, ty, DEFAULT_TTL, rrFor v⟩ :: rest) soaAcc recAcc =
      fromGo dns_name rest soaAcc (setRec (ensureType recAcc ty) ty host v) := by
  have hhost' : (if fqdn dns_name host = dns_name then "@"
      else pyReplaceDel (fqdn dns_name host) ("." ++ dns_name)) = host := by
    by_cases hat : host = "@"
    · subst hat
      simp [fqdn]
    · rw [fqdn, if_neg hat, if_neg (qualified_ne_zone dns_name host)]
      simp only [hostOk, Bool.or_eq_true, beq_iff_eq] at hhost
      rcases hhost with h | h
      · exact absurd h hat
      · exact h
  match v with
  | .single s =>
    simp only [valOk, Bool.and_eq_true] at hval
    have hS : ty ∈ SINGLE_RECORD_TYPES := by
      have := hval.1
      simpa using this
    have hq : '"' ∉ s.data := by
      have := hval.2
      simpa using this
    rw [fromGo]
    simp only [if_neg (single_ne_soa ty hS)]
    rw [hhost']
    simp only [rrFor, List.length_cons, List.length_nil, if_pos hS]
    rw [if_neg (by omega : ¬ (1 < 0 + 1))]
    rw [pyRemoveQuotes_eq_self s hq]
  | .multi l =>
    have hM : ty ∈ MULTIPLE_RECORD_TYPES := by
      simp only [valOk] at hval
      simpa using hval
    rw [fromGo]
    simp only [if_neg (multi_ne_soa ty hM)]
    rw [hhost']
    simp only [rrFor, if_neg (multi_not_single ty hM), if_pos hM]

theorem fromGo_hosts (dns_name ty : String) (hosts done : List (String × RecValue))
    (front : DesiredRecords) (rest : List FlatRecord) (soaAcc : Option Soa)
    (hfront : ∀ p ∈ front, p.1 ≠ ty)
    (hvals : ∀ q ∈ hosts, valOk ty q.2 = true ∧ hostOk dns_name q.1 = true)
    (hdisj : ∀ q ∈ hosts, ∀ q' ∈ done, q.1 ≠ q'.1)
    (hnodup : (hosts.map Prod.fst).Nodup) :
    fromGo dns_name (hostsFlat dns_name ty hosts ++ rest) soaAcc (front ++ [(ty, done)]) =
      fromGo dns_name rest soaAcc (front ++ [(ty, done ++ hosts)]) := by
  induction hosts generalizing done with
  | nil => simp [hostsFlat]
  | cons q hs ih =>
    obtain ⟨host, v⟩ := q
    have hq := hvals (host, v) (List.mem_cons_self _ _)
    have hstep := fromGo_step dns_name ty host v (hostsFlat dns_name ty hs ++ rest) soaAcc
      (front ++ [(ty, done)]) hq.1 hq.2
    simp only [hostsFlat, List.map_cons, List.cons_append] at hstep ⊢
    rw [hstep, ensureType_state front ty done hfront, setRec_state front ty done host v hfront]
    rw [mapAssign_absent done host v
      (fun p hp => (hdisj (host, v) (List.mem_cons_self _ _) p hp).symm)]
    have hnodup' : (hs.map Prod.fst).Nodup := by
      rw [List.map_cons, List.nodup_cons] at hnodup
      exact hnodup.2
    have hhead : host ∉ hs.map Prod.fst := by
      rw [List.map_cons, List.nodup_cons] at hnodup
      exact hnodup.1
    have ihx := ih (done ++ [(host, v)])
      (fun q hq => hvals q (List.mem_cons_of_mem _ hq))
      (fun q hqm q' hq' => by
        rcases List.mem_append.mp hq' with hd | hsing
        · exact hdisj q (List.mem_cons_of_mem _ hqm) q' hd
        · rcases List.mem_singleton.mp hsing with rfl
          intro hk
          have hk2 : q.1 = host := hk
          exact hhead (hk2 ▸ List.mem_map.mpr ⟨q, hqm, rfl⟩))
      hnodup'
    simp only [hostsFlat] at ihx
    rw [ihx]
    simp

theorem fromGo_types (dns_name : String) (R : DesiredRecords) (front : DesiredRecords)
    (soaAcc : Option Soa)
    (hdisj : ∀ p ∈ R, ∀ p' ∈ front, p.1 ≠ p'.1)
    (hnodup : (R.map Prod.fst).Nodup)
    (hgood : ∀ p ∈ R, p.2 ≠ [] ∧ (p.2.map Prod.fst).Nodup ∧
      ∀ q ∈ p.2, valOk p.1 q.2 = true ∧ hostOk dns_name q.1 = true) :
    fromGo dns_name (encodeFlat dns_name R) soaAcc front = .ok (soaAcc, front ++ R) := by
  induction R generalizing front with
  | nil => simp [encodeFlat, fromGo]
  | cons p R' ih =>
    obtain ⟨ty, hosts⟩ := p
    obtain ⟨hne, hnodup2, hvals⟩ := hgood (ty, hosts) (List.mem_cons_self _ _)
    have hfront : ∀ p' ∈ front, p'.1 ≠ ty :=
      fun p' hp' => ((hdisj (ty, hosts) (List.mem_cons_self _ _) p' hp')).symm
    match hhosts : hosts, hne with
    | (host, v) :: hs, _ =>
    have hq := hvals (host, v) (List.mem_cons_self _ _)
    have hflat : encodeFlat dns_name (((ty, (host, v) :: hs)) :: R') =
        (⟨fqdn dns_name host, ty, DEFAULT_TTL, rrFor v⟩ ::
          (hostsFlat dns_name ty hs ++ encodeFlat dns_name R')) := by
      simp [encodeFlat, hostsFlat]
    rw [hflat]
    rw [fromGo_step dns_name ty host v (hostsFlat dns_name ty hs ++ encodeFlat dns_name R')
      soaAcc front hq.1 hq.2]
    rw [ensureType_new front ty hfront, setRec_state front ty [] host v hfront]
    have hassign : mapAssign ([] : List (String × RecValue)) host v = [(host, v)] := rfl
    rw [hassign]
    rw [List.map_cons, List.nodup_cons] at hnodup2
    rw [fromGo_hosts dns_name ty hs [(host, v)] front (encodeFlat dns_name R') soaAcc hfront
      (fun q hqm => hvals q (List.mem_cons_of_mem _ hqm))
      (fun q hqm q' hq' => by
        rcases List.mem_singleton.mp hq' with rfl
        intro hk
        have hk2 : q.1 = host := hk
        exact hnodup2.1 (hk2 ▸ List.mem_map.mpr ⟨q, hqm, rfl⟩))
      hnodup2.2]
    have hR'nodup : (R'.map Prod.fst).Nodup := by
      rw [List.map_cons, List.nodup_cons] at hnodup
      exact hnodup.2
    have hihx := ih (front ++ [(ty, (host, v) :: hs)])
      (fun p hp p' hp' => by
        rcases List.mem_append.mp hp' with hf | hsing
        · exact hdisj p (List.mem_cons_of_mem _ hp) p' hf
        · rcases List.mem_singleton.mp hsing with rfl
          rw [List.map_cons, List.nodup_cons] at hnodup
          intro hk
          have hk2 : p.1 = ty := hk
          exact hnodup.1 (hk2 ▸ List.mem_map.mpr ⟨p, hp, rfl⟩))
      hR'nodup
      (fun p hp => hgood p (List.mem_cons_of_mem _ hp))
    simp only [List.singleton_append]
    rw [hihx]
    simp

theorem roundtrip_aux (dns_name : String) (R : DesiredRecords) (S : Soa)
    (hR : GoodRecords dns_name R = true)
    (hp : ∀ c ∈ S.primary.data, c ≠ ' ')
    (hc : ∀ c ∈ S.contact.data, c ≠ ' ') :
    to_gdns_records dns_name R (some S) =
      some (.recs (soaRecord dns_name S :: encodeFlat dns_name R)) ∧
    from_gdns_records dns_name (soaRecord dns_name S :: encodeFlat dns_name R) =
      .ok ⟨some S, some R⟩ := by
  simp only [GoodRecords, Bool.and_eq_true, List.all_eq_true] at hR
  obtain ⟨⟨hne, hnodup⟩, hall⟩ := hR
  have hne' : R ≠ [] := by
    cases R with
    | nil => simp at hne
    | cons a b => simp
  have hnodup' := (nodupKeys_iff R).mp hnodup
  have hfacts : ∀ p ∈ R, p.1 ≠ "TXT" ∧ p.2 ≠ [] ∧ (p.2.map Prod.fst).Nodup ∧
      ∀ q ∈ p.2, valOk p.1 q.2 = true ∧ hostOk dns_name q.1 = true := by
    intro p hpm
    have := hall p hpm
    simp only [Bool.and_eq_true, bne_iff_ne, Bool.not_eq_true', List.all_eq_true] at this
    obtain ⟨⟨⟨htxt, hpe⟩, hnk⟩, hv⟩ := this
    refine ⟨htxt, ?_, (nodupKeys_iff _).mp hnk, hv⟩
    cases hx : p.2 with
    | nil => rw [hx] at hpe; simp at hpe
    | cons a b => simp
  constructor
  · have henc : to_gdns_records dns_name R (some S) =
        match recsLoop dns_name R with
        | some entries => some (EncodeOut.recs ([soaRecord dns_name S] ++ entries))
        | none => none := by
      rw [to_gdns_records, if_neg]
      simp
    rw [henc, recsLoop_good dns_name R
      (fun p hpm q hq => ⟨((hfacts p hpm).2.2.2 q hq).1, (hfacts p hpm).1⟩)]
    rfl
  · have h1 : fromGo dns_name (soaRecord dns_name S :: encodeFlat dns_name R) none [] =
        fromGo dns_name (encodeFlat dns_name R) (some S) [] := by
      rw [fromGo]
      simp only [soaRecord]
      simp only [if_true]
      rw [decodeSoaFields_soaRrdata S hp hc]
    have hRne : R.isEmpty = false := by
      cases R with
      | nil => exact absurd rfl hne'
      | cons a b => rfl
    rw [from_gdns_records, h1]
    rw [fromGo_types dns_name R [] (some S) (fun p _ p' hp' => absurd hp' (List.not_mem_nil p'))
      hnodup' (fun p hpm => (hfacts p hpm).2)]
    simp [hRne]

theorem dForall_imp {P Q : String → PTree → Prop} (h : ∀ k v, P k v → Q k v) :
    ∀ l : PDict, dForall P l → dForall Q l
  | .nil, _ => trivial
  | .cons k v r, hl => ⟨h k v hl.1, dForall_imp h r hl.2⟩

theorem lForall_imp {P Q : PTree → Prop} (h : ∀ v, P v → Q v) :
    ∀ l : PList, lForall P l → lForall Q l
  | .nil, _ => trivial
  | .cons v r, hl => ⟨h v hl.1, lForall_imp h r hl.2⟩

theorem dForall_and {P Q : String → PTree → Prop} :
    ∀ l : PDict, dForall P l → dForall Q l → dForall (fun k v => P k v ∧ Q k v) l
  | .nil, _, _ => trivial
  | .cons _ _ r, hp, hq => ⟨⟨hp.1, hq.1⟩, dForall_and r hp.2 hq.2⟩

theorem lForall_and {P Q : PTree → Prop} :
    ∀ l : PList, lForall P l → lForall Q l → lForall (fun v => P v ∧ Q v) l
  | .nil, _, _ => trivial
  | .cons _ r, hp, hq => ⟨⟨hp.1, hq.1⟩, lForall_and r hp.2 hq.2⟩

theorem dForall_sz : ∀ l : PDict, dForall (fun _ v => szT v ≤ szD l) l
  | .nil => trivial
  | .cons k v r => by
    refine ⟨by simp [szD]; omega, ?_⟩
    refine dForall_imp (fun k' v' h => ?_) r (dForall_sz r)
    simp [szD]
    omega

theorem lForall_sz : ∀ l : PList, lForall (fun v => szT v ≤ szL l) l
  | .nil => trivial
  | .cons v r => by
    refine ⟨by simp [szL]; omega, ?_⟩
    refine lForall_imp (fun v' h => ?_) r (lForall_sz r)
    simp [szL]
    omega

theorem dForall_wf : ∀ l : PDict, wfD l = true → dForall (fun _ v => wfT v = true) l
  | .nil, _ => trivial
  | .cons _ v r, h => by
    rw [wfD, Bool.and_eq_true] at h
    exact ⟨h.1, dForall_wf r h.2⟩

theorem lForall_wf : ∀ l : PList, wfL l = true → lForall (fun v => wfT v = true) l
  | .nil, _ => trivial
  | .cons v r, h => by
    rw [wfL, Bool.and_eq_true] at h
    exact ⟨h.1, lForall_wf r h.2⟩

theorem dForall_hasKey : ∀ l : PDict, dForall (fun k _ => dHasKey l k = true) l
  | .nil => trivial
  | .cons k v r => by
    refine ⟨by simp [dHasKey], ?_⟩
    refine dForall_imp (fun k' v' h => ?_) r (dForall_hasKey r)
    simp [dHasKey]
    right
    exact h

theorem lookupD_self_bindings : ∀ l : PDict, dKeysNodup l = true →
    dForall (fun k v => lookupD l k = some v) l
  | .nil, _ => trivial
  | .cons k v r, hnd => by
    rw [dKeysNodup, Bool.and_eq_true, Bool.not_eq_true'] at hnd
    refine ⟨by simp [lookupD], ?_⟩
    have hr := lookupD_self_bindings r hnd.2
    have hkeys := dForall_hasKey r
    refine dForall_imp (fun k' v' h => ?_) r (dForall_and r hr hkeys)
    obtain ⟨hlk, hhk⟩ := h
    have hne : k ≠ k' := by
      intro he
      rw [he] at hnd
      rw [hnd.1] at hhk
      exact Bool.false_ne_true hhk
    rw [lookupD, if_neg hne]
    exact hlk

theorem szT_pos : ∀ t : PTree, 1 ≤ szT t
  | .int _ => le_refl 1
  | .str _ => le_refl 1
  | .null => le_refl 1
  | .map l => by simp [szT]
  | .seq l => by simp [szT]

theorem truthy_emptyLike (t : PTree) : truthy (emptyLike t) = false := by
  cases t <;> rfl

theorem dictGo_skip_all (rec : PTree → PTree → Except PyErr Delta) (sup : PTree) :
    ∀ (l : PDict) (new : PDict) (old : PTree),
    dForall (fun k v => ∃ cmp, (pyLookup sup k >>= fun w => rec v w) = .ok cmp ∧
      truthy cmp.new = false) l →
    dictGo rec sup l new old = .ok ⟨.map new, old⟩
  | .nil, _, _, _ => rfl
  | .cons k v r, new, old, h => by
    obtain ⟨⟨cmp, hcmp, htr⟩, hrest⟩ := h
    cases old
    all_goals rw [dictGo, hcmp]
    all_goals first
      | (intro l hl; exact PTree.noConfusion hl)
      | (simp only [htr, Bool.false_eq_true, if_false]
         exact dictGo_skip_all rec sup r new _ hrest)

theorem idxL_plDrop : ∀ (i : Nat) (l : PList),
    idxL l i = match plDrop i l with
      | .cons v _ => some v
      | .nil => none
  | 0, .nil => rfl
  | 0, .cons _ _ => rfl
  | _+1, .nil => rfl
  | i+1, .cons _ r => by
    rw [idxL, plDrop]
    exact idxL_plDrop i r

theorem plDrop_succ : ∀ (i : Nat) (l : PList), plDrop (i + 1) l = plTail (plDrop i l)
  | 0, .nil => rfl
  | 0, .cons _ _ => rfl
  | i+1, .nil => by
    rw [plDrop]
    cases hi : plDrop i (PList.nil) with
    | nil => rfl
    | cons a b =>
      exfalso
      have : ∀ j, plDrop j PList.nil = PList.nil := fun j => by cases j <;> rfl
      rw [this i] at hi
      exact PList.noConfusion hi
  | i+1, .cons _ r => by
    rw [plDrop, plDrop_succ i r]
    rfl

theorem seqGo_skip_all (rec : PTree → PTree → Except PyErr Delta) (l₀ : PList) :
    ∀ (l : PList) (i : Nat) (news olds : PList),
    plDrop i l₀ = l →
    lForall (fun v => ∃ cmp, rec v v = .ok cmp ∧ truthy cmp.new = false) l →
    seqGo rec (.seq l₀) l i news olds = .ok ⟨.seq (pRev news .nil), .seq (pRev olds .nil)⟩
  | .nil, _, _, _, _, _ => rfl
  | .cons v r, i, news, olds, hdrop, h => by
    obtain ⟨⟨cmp, hcmp, htr⟩, hrest⟩ := h
    have hidx : idxL l₀ i = some v := by
      rw [idxL_plDrop, hdrop]
    have hpy : pyIndex (.seq l₀) i = .ok v := by
      rw [pyIndex, hidx]
    have hbind : (pyIndex (.seq l₀) i >>= fun w => rec v w) = rec v v := by
      rw [hpy]
      rfl
    rw [seqGo, hbind, hcmp]
    simp only [htr, Bool.false_eq_true, if_false]
    have hdrop' : plDrop (i + 1) l₀ = r := by
      rw [plDrop_succ, hdrop]
      rfl
    exact seqGo_skip_all rec l₀ r (i + 1) news olds hdrop' hrest

theorem isSubsetF_self : ∀ (f : Nat) (X : PTree), szT X ≤ f → wfT X = true →
    isSubsetF f X X = .ok ⟨emptyLike X, emptyLike X⟩ := by
  intro f
  induction f with
  | zero =>
    intro X hf _
    exact absurd hf (by have := szT_pos X; omega)
  | succ f ih =>
    intro X hf hwf
    cases X with
    | int i => simp [isSubsetF, scalarCmp, emptyLike]
    | str s => simp [isSubsetF, scalarCmp, emptyLike]
    | null => simp [isSubsetF, scalarCmp, emptyLike]
    | map l =>
      rw [wfT, Bool.and_eq_true] at hwf
      have hsz : szD l ≤ f := by
        rw [szT] at hf
        omega
      rw [isSubsetF]
      show dictGo (isSubsetF f) (.map l) l .nil (.map .nil) = .ok ⟨.map .nil, .map .nil⟩
      apply dictGo_skip_all
      have h1 := lookupD_self_bindings l hwf.1
      have h2 := dForall_sz l
      have h3 := dForall_wf l hwf.2
      refine dForall_imp ?_ l (dForall_and l (dForall_and l h1 h2) h3)
      rintro k v ⟨⟨hlk, hszv⟩, hwfv⟩
      refine ⟨⟨emptyLike v, emptyLike v⟩, ?_, truthy_emptyLike v⟩
      have hpy : pyLookup (.map l) k = .ok v := by rw [pyLookup, hlk]
      have hbind : (pyLookup (.map l) k >>= fun w => isSubsetF f v w) = isSubsetF f v v := by
        rw [hpy]
        rfl
      rw [hbind]
      exact ih v (le_trans hszv hsz) hwfv
    | seq l =>
      rw [wfT] at hwf
      have hsz : szL l ≤ f := by
        rw [szT] at hf
        omega
      rw [isSubsetF]
      show seqGo (isSubsetF f) (.seq l) l 0 .nil .nil = .ok ⟨.seq .nil, .seq .nil⟩
      have hres := seqGo_skip_all (isSubsetF f) l l 0 .nil .nil rfl ?_
      · exact hres
      · have h2 := lForall_sz l
        have h3 := lForall_wf l hwf
        refine lForall_imp ?_ l (lForall_and l h2 h3)
        rintro v ⟨hszv, hwfv⟩
        exact ⟨⟨emptyLike v, emptyLike v⟩, ih v (le_trans hszv hsz) hwfv, truthy_emptyLike v⟩

theorem idxL_lt : ∀ (l : PList) (i : Nat), i < plLen l → ∃ v, idxL l i = some v
  | PList.nil, i, h => absurd h (by simp [plLen])
  | .cons v _, 0, _ => ⟨v, rfl⟩
  | .cons _ r, i+1, h => by
    rw [idxL]
    exact idxL_lt r i (by rw [plLen] at h; omega)

theorem idxL_ge : ∀ (l : PList) (i : Nat), plLen l ≤ i → idxL l i = none
  | PList.nil, i, _ => by cases i <;> rfl
  | .cons _ _, 0, h => absurd h (by simp [plLen])
  | .cons _ r, i+1, h => by
    rw [idxL]
    exact idxL_ge r i (by rw [plLen] at h; omega)

theorem seqGo_oob (rec : PTree → PTree → Except PyErr Delta) (l₀ : PList) :
    ∀ (l : PList) (i : Nat) (news olds : PList),
    plLen l₀ < i + plLen l → i ≤ plLen l₀ →
    ∃ e, seqGo rec (.seq l₀) l i news olds = .error e
  | PList.nil, i, _, _, h1, h2 => by
    rw [plLen] at h1
    omega
  | .cons v r, i, news, olds, h1, h2 => by
    rw [plLen] at h1
    by_cases hlt : i < plLen l₀
    · obtain ⟨w, hw⟩ := idxL_lt l₀ i hlt
      have hbind : (pyIndex (.seq l₀) i >>= fun x => rec v x) = rec v w := by
        rw [pyIndex, hw]
        rfl
      rw [seqGo, hbind]
      cases hrec : rec v w with
      | error e => exact ⟨e, rfl⟩
      | ok cmp =>
        cases htr : truthy cmp.new with
        | false =>
          simp only [htr, Bool.false_eq_true, if_false]
          exact seqGo_oob rec l₀ r (i + 1) news olds (by omega) (by omega)
        | true =>
          simp only [htr, if_true]
          exact seqGo_oob rec l₀ r (i + 1) (.cons cmp.new news) (.cons cmp.old olds)
            (by omega) (by omega)
    · have hge : plLen l₀ ≤ i := by omega
      have hbind : (pyIndex (.seq l₀) i >>= fun x => rec v x) = .error .indexError := by
        rw [pyIndex, idxL_ge l₀ i hge]
        rfl
      rw [seqGo, hbind]
      exact ⟨.indexError, rfl⟩

theorem seqGo_prefix_oob (rec : PTree → PTree → Except PyErr Delta) (l₀ : PList) :
    ∀ (pre rest : PList) (i : Nat) (news olds : PList),
    plDrop i l₀ = pre → i + plLen pre = plLen l₀ → rest ≠ .nil →
    lForall (fun v => ∃ cmp, rec v v = .ok cmp ∧ truthy cmp.new = false) pre →
    seqGo rec (.seq l₀) (plAppend pre rest) i news olds = .error .indexError
  | PList.nil, rest, i, news, olds, hdrop, hlen, hne, _ => by
    cases rest with
    | nil => exact absurd rfl hne
    | cons v r =>
      rw [plLen] at hlen
      have hge : plLen l₀ ≤ i := by omega
      have hbind : (pyIndex (.seq l₀) i >>= fun x => rec v x) = .error .indexError := by
        rw [pyIndex, idxL_ge l₀ i hge]
        rfl
      show seqGo rec (.seq l₀) (.cons v r) i news olds = .error .indexError
      rw [seqGo, hbind]
  | .cons v pre', rest, i, news, olds, hdrop, hlen, hne, hfa => by
    obtain ⟨⟨cmp, hcmp, htr⟩, hrest⟩ := hfa
    have hidx : idxL l₀ i = some v := by
      rw [idxL_plDrop, hdrop]
    have hbind : (pyIndex (.seq l₀) i >>= fun x => rec v x) = rec v v := by
      rw [pyIndex, hidx]
      rfl
    have hdrop' : plDrop (i + 1) l₀ = pre' := by
      rw [plDrop_succ, hdrop]
      rfl
    rw [plLen] at hlen
    show seqGo rec (.seq l₀) (.cons v (plAppend pre' rest)) i news olds = .error .indexError
    rw [seqGo, hbind, hcmp]
    simp only [htr, Bool.false_eq_true, if_false]
    exact seqGo_prefix_oob rec l₀ pre' rest (i + 1) news olds hdrop' (by omega) hne hrest

/-! ### TXT chunking lemmas -/
theorem strMk_data (s : String) : String.mk s.data = s := rfl

theorem pyStripChars_noop (cs : List Char) (s : String) (h : ∀ c ∈ s.data, c ∉ cs) :
    pyStripChars cs s = s := by
  have hdw : ∀ l : List Char, (∀ c ∈ l, c ∉ cs) → (l.dropWhile (· ∈ cs)) = l := by
    intro l hl
    cases l with
    | nil => rfl
    | cons c r =>
      rw [List.dropWhile_cons]
      simp [hl c (List.mem_cons_self _ _)]
  rw [pyStripChars, hdw _ h, hdw _ (fun c hc => h c (List.mem_reverse.mp hc))]
  rw [List.reverse_reverse]

theorem chunkGo_step (f : Nat) (l : List Char) (hl : l ≠ []) :
    chunkGo (f + 1) l = quoteWrap (l.take 255) :: chunkGo f (l.drop 255) := by
  cases l with
  | nil => exact absurd rfl hl
  | cons c r => rfl

theorem chunkGo_nil (f : Nat) : chunkGo f [] = [] := by
  cases f <;> rfl

theorem pyRemoveQuotes_quoteWrap (l : List Char) (h : '"' ∉ l) :
    pyRemoveQuotes (quoteWrap l) = String.mk l := by
  rw [pyRemoveQuotes, quoteWrap]
  have h1 : l.filter (· ≠ '"') = l := by
    rw [List.filter_eq_self]
    intro a ha
    simp only [ne_eq, decide_eq_true_eq]
    intro hq
    subst hq
    exact h ha
  have h2 : (('"' :: (l ++ ['"'])).filter (· ≠ '"')) = l := by
    simp [List.filter_cons, List.filter_append, h1]
    intro a ha hq
    subst hq
    exact h ha
  rw [h2]

theorem txt_encode_long (v : String)
    (h1 : pyStripChars ['\\', 'n'] v = v) (h2 : pyStripChars ['\n'] v = v)
    (hq : '"' ∉ v.data) (hlen : v.data.length = 600) :
    entryRrdatas "TXT" (.single v) =
      some [quoteWrap (v.data.take 255), quoteWrap ((v.data.drop 255).take 255),
        quoteWrap ((v.data.drop 255).drop 255)] := by
  have hq' : pyStripChars ['"'] v = v :=
    pyStripChars_noop ['"'] v (fun c hc hm => by
      rcases List.mem_singleton.mp hm with rfl
      exact hq hc)
  have hvlen : v.length = 600 := hlen
  rw [entryRrdatas]
  rw [if_pos (show pyUpper "TXT" ∈ SINGLE_RECORD_TYPES by decide)]
  rw [if_pos (show pyUpper "TXT" = "TXT" from rfl)]
  simp only [h1, h2, hq']
  rw [if_pos (by omega : 256 < v.length)]
  have e1 : v.data ≠ [] := by
    intro hx
    rw [hx] at hlen
    simp at hlen
  have hl2 : (v.data.drop 255).length = 345 := by
    rw [List.length_drop, hlen]
  have e2 : v.data.drop 255 ≠ [] := by
    intro hx
    rw [hx] at hl2
    simp at hl2
  have hl3 : ((v.data.drop 255).drop 255).length = 90 := by
    rw [List.length_drop, hl2]
  have e3 : (v.data.drop 255).drop 255 ≠ [] := by
    intro hx
    rw [hx] at hl3
    simp at hl3
  have e4 : ((v.data.drop 255).drop 255).drop 255 = [] := by
    have : (((v.data.drop 255).drop 255).drop 255).length = 0 := by
      rw [List.length_drop, hl3]
    exact List.eq_nil_of_length_eq_zero this
  have htake3 : ((v.data.drop 255).drop 255).take 255 = (v.data.drop 255).drop 255 :=
    List.take_of_length_le (by omega)
  rw [chunk, hlen]
  rw [show (600 : Nat) = 599 + 1 from rfl, chunkGo_step 599 _ e1]
  rw [show (599 : Nat) = 598 + 1 from rfl, chunkGo_step 598 _ e2]
  rw [show (598 : Nat) = 597 + 1 from rfl, chunkGo_step 597 _ e3]
  rw [e4, chunkGo_nil, htake3]

theorem txt_encode_short (w : String)
    (h1 : pyStripChars ['\\', 'n'] w = w) (h2 : pyStripChars ['\n'] w = w)
    (hlen : w.data.length = 200) :
    entryRrdatas "TXT" (.single w) = some ["\"" ++ w ++ "\""] := by
  have hvlen : w.length = 200 := hlen
  rw [entryRrdatas]
  rw [if_pos (show pyUpper "TXT" ∈ SINGLE_RECORD_TYPES by decide)]
  rw [if_pos (show pyUpper "TXT" = "TXT" from rfl)]
  simp only [h1, h2]
  rw [if_neg (by omega : ¬ 256 < w.length)]

theorem to_gdns_one_txt (dns_name v : String) (rr : List String)
    (he : entryRrdatas "TXT" (.single v) = some rr) :
    to_gdns_records dns_name [("TXT", [("@", RecValue.single v)])] none =
      some (.recs [⟨dns_name, "TXT", DEFAULT_TTL, rr⟩]) := by
  have hh : hostsLoop dns_name "TXT" [("@", RecValue.single v)] =
      some [⟨dns_name, "TXT", DEFAULT_TTL, rr⟩] := by
    rw [hostsLoop, entryFor, he]
    rfl
  rw [to_gdns_records, if_neg (by simp)]
  rw [recsLoop, hh]
  rfl

theorem plLen_append : ∀ a b : PList, plLen (plAppend a b) = plLen a + plLen b
  | PList.nil, b => by
    rw [plAppend, plLen]
    omega
  | .cons v r, b => by
    rw [plAppend, plLen, plLen, plLen_append r b]
    omega

theorem szL_append : ∀ a b : PList, szL (plAppend a b) = szL a + szL b
  | PList.nil, b => by
    rw [plAppend, szL]
    omega
  | .cons v r, b => by
    rw [plAppend, szL, szL, szL_append r b]
    omega

theorem from_single_soa (dns_name nm : String) (ttl : Nat) (r0 : String) :
    from_gdns_records dns_name [⟨nm, "SOA", ttl, [r0]⟩] =
      match decodeSoaFields r0 with
      | .ok s => .ok ⟨some s, none⟩
      | .error e => .error e := by
  cases hd : decodeSoaFields r0 with
  | ok s => simp [from_gdns_records, fromGo, hd]
  | error e => simp [from_gdns_records, fromGo, hd]

theorem decodeSoaFields_seven (r0 : String) (h : (pySplit r0 " ").length = 7) :
    decodeSoaFields r0 ≠ .error .malformedSoa := by
  rcases hsp : pySplit r0 " " with _ | ⟨a, _ | ⟨b, _ | ⟨c, _ | ⟨d, _ | ⟨e, _ | ⟨f, _ | ⟨g, _ | ⟨h8, t⟩⟩⟩⟩⟩⟩⟩⟩ <;>
    rw [hsp] at h <;> try simp at h
  rw [decodeSoaFields, hsp]
  cases h1 : pyIntOfString c <;> cases h2 : pyIntOfString d <;> cases h3 : pyIntOfString e <;>
    cases h4 : pyIntOfString f <;> cases h5 : pyIntOfString g <;> simp [h1, h2, h3, h4, h5]

theorem decodeSoaFields_not_seven (r0 : String) (h : (pySplit r0 " ").length ≠ 7) :
    decodeSoaFields r0 = .error .malformedSoa := by
  rw [decodeSoaFields]
  rcases hsp : pySplit r0 " " with _ | ⟨a, _ | ⟨b, _ | ⟨c, _ | ⟨d, _ | ⟨e, _ | ⟨f, _ | ⟨g, _ | ⟨h8, t⟩⟩⟩⟩⟩⟩⟩⟩ <;>
    first
      | rfl
      | (exfalso; rw [hsp] at h; simp at h)

theorem fromGo_unsupported (dns_name ty : String) :
    ∀ (recs : List FlatRecord) (soaAcc : Option Soa),
    (∀ r ∈ recs, r.type = ty) → ty ≠ "SOA" → ty ∉ SINGLE_RECORD_TYPES →
    ty ∉ MULTIPLE_RECORD_TYPES →
    fromGo dns_name recs soaAcc [(ty, [])] = .ok (soaAcc, [(ty, [])])
  | [], _, _, _, _, _ => rfl
  | r :: rest, soaAcc, hty, hsoa, hs, hm => by
    have hr : r.type = ty := hty r (List.mem_cons_self _ _)
    have hens : ensureType [(ty, [])] ty = [(ty, [])] := by
      rw [ensureType]
      simp [lookupA, mapAssign]
    rw [fromGo, hr, if_neg hsoa]
    simp only [hens, if_neg hs, if_neg hm]
    exact fromGo_unsupported dns_name ty rest soaAcc
      (fun q hq => hty q (List.mem_cons_of_mem _ hq)) hsoa hs hm

theorem filter_quoteWrap (l : List Char) (h : '"' ∉ l) :
    (quoteWrap l).data.filter (· ≠ '"') = l := by
  rw [quoteWrap]
  have h1 : l.filter (· ≠ '"') = l := by
    rw [List.filter_eq_self]
    intro a ha
    simp only [ne_eq, decide_eq_true_eq]
    intro hq
    subst hq
    exact h ha
  simp [List.filter_cons, List.filter_append, h1]
  intro a ha hq
  subst hq
  exact h ha

/-! ### Claims -/
/-- C1, counterexample to the claim as stated: a `DesiredRecords` mapping with
the lower-case type key `"a"` (and no TXT value) is canonicalized to `"A"` by
the encoder, and the decoder returns the `"A"` key, so the round trip does not
reproduce `{soa: S, records: R}`. -/
theorem claim_C1_counterexample :
    to_gdns_records "example.com." [("a", [("@", RecValue.multi ["1.2.3.4"])])] (some soaEx) =
      some (.recs [soaRecord "example.com." soaEx,
        ⟨"example.com.", "A", 3600, ["1.2.3.4"]⟩]) ∧
    from_gdns_records "example.com."
        [soaRecord "example.com." soaEx, ⟨"example.com.", "A", 3600, ["1.2.3.4"]⟩] =
      .ok ⟨some soaEx, some [("A", [("@", RecValue.multi ["1.2.3.4"])])]⟩ ∧
    [("A", [("@", RecValue.multi ["1.2.3.4"])])] ≠
      [("a", [("@", RecValue.multi ["1.2.3.4"])])] :=
  ⟨rfl, rfl, by decide⟩

/-- C1 (amended): for every zone apex, every nonempty `DesiredRecords` mapping
`R` with canonical upper-case supported non-TXT type keys, no duplicate type or
host keys, nonempty host maps, quote-free single values, list-shaped
multi-values, and host tokens whose qualified names decode back (the
`GoodRecords` predicate), and every SOA `S` whose primary and contact contain
no space, `from_gdns_records` of `to_gdns_records` reproduces
`{soa: S, records: R}`. -/
theorem claim_C1 (dns_name : String) (R : DesiredRecords) (S : Soa)
    (hR : GoodRecords dns_name R = true)
    (hp : ∀ c ∈ S.primary.data, c ≠ ' ') (hc : ∀ c ∈ S.contact.data, c ≠ ' ') :
    to_gdns_records dns_name R (some S) =
      some (.recs (soaRecord dns_name S :: encodeFlat dns_name R)) ∧
    from_gdns_records dns_name (soaRecord dns_name S :: encodeFlat dns_name R) =
      .ok ⟨some S, some R⟩ :=
  roundtrip_aux dns_name R S hR hp hc

/-- C1 witness: the round trip at a concrete two-type record set and SOA. -/
theorem claim_C1_witness :
    to_gdns_records "example.com." recsEx (some soaEx) =
      some (.recs (soaRecord "example.com." soaEx :: encodeFlat "example.com." recsEx)) ∧
    from_gdns_records "example.com."
        (soaRecord "example.com." soaEx :: encodeFlat "example.com." recsEx) =
      .ok ⟨some soaEx, some recsEx⟩ :=
  claim_C1 "example.com." recsEx soaEx (by decide) (by decide) (by decide)

/-- C2: the claim says `_is_subset` never raises on shape mismatches between a
mapping's values; but when the subset value is a scalar that is a member of the
superset's sequence value, no branch of the scalar case assigns `changes` and
the function raises `UnboundLocalError` (kubernetes.py lines 215-217, 224).
This theorem evaluates the code at the failing input. -/
theorem claim_C2 :
    is_subset (.map (.cons "k" (.int 5) .nil))
        (.map (.cons "k" (.seq (.cons (.int 5) .nil)) .nil)) = .error .unboundLocal ∧
    is_subset (.int 5) (.seq (.cons (.int 5) .nil)) = .error .unboundLocal :=
  ⟨rfl, rfl⟩

/-- C3: the claim (and the source's own log message "skipping...") says an
unsupported record type produces zero flat record sets; but the append at
gdns.py line 79 sits outside the `if`/`elif`/`else`, so one record set with
empty rrdatas is emitted.  This theorem evaluates the code at the failing
input `{"BOGUS": {"@": "x"}}`. -/
theorem claim_C3 :
    to_gdns_records "example.com." [("BOGUS", [("@", RecValue.single "x")])] none =
      some (.recs [⟨"example.com.", "BOGUS", 3600, []⟩]) := rfl

/-- C4, counterexample to the claim as stated: the three rrdatas of the
600-character TXT encoding are quote-wrapped, so the first rrdata string has
length 257, not at most 255. -/
theorem claim_C4_counterexample :
    to_gdns_records "example.com." [("TXT", [("@", RecValue.single (aStr 600))])] none =
      some (.recs [⟨"example.com.", "TXT", 3600,
        [quoteWrap (aChars 255), quoteWrap (aChars 255), quoteWrap (aChars 90)]⟩]) ∧
    (quoteWrap (aChars 255)).length = 257 ∧ ¬ (quoteWrap (aChars 255)).length ≤ 255 :=
  ⟨rfl, rfl, by decide⟩

/-- C4 (amended): a TXT value whose stripped length is 600 encodes into
exactly 3 rrdatas, each wrapping at most 255 characters in double quotes (so
each rrdata string has length at most 257), whose quote-stripped concatenation
in order reproduces the original 600-character string; a TXT value of length
200 encodes into exactly 1 rrdata. -/
theorem claim_C4 (dns_name v w : String)
    (hv1 : pyStripChars ['\\', 'n'] v = v) (hv2 : pyStripChars ['\n'] v = v)
    (hvq : '"' ∉ v.data) (hvlen : v.data.length = 600)
    (hw1 : pyStripChars ['\\', 'n'] w = w) (hw2 : pyStripChars ['\n'] w = w)
    (hwlen : w.data.length = 200) :
    to_gdns_records dns_name [("TXT", [("@", RecValue.single v)])] none =
      some (.recs [⟨dns_name, "TXT", DEFAULT_TTL,
        [quoteWrap (v.data.take 255), quoteWrap ((v.data.drop 255).take 255),
          quoteWrap ((v.data.drop 255).drop 255)]⟩]) ∧
    ([quoteWrap (v.data.take 255), quoteWrap ((v.data.drop 255).take 255),
        quoteWrap ((v.data.drop 255).drop 255)] : List String).length = 3 ∧
    (∀ r ∈ [quoteWrap (v.data.take 255), quoteWrap ((v.data.drop 255).take 255),
        quoteWrap ((v.data.drop 255).drop 255)],
      (pyRemoveQuotes r).length ≤ 255 ∧ r.length ≤ 257) ∧
    pyRemoveQuotes (strJoin [quoteWrap (v.data.take 255),
        quoteWrap ((v.data.drop 255).take 255),
        quoteWrap ((v.data.drop 255).drop 255)]) = v ∧
    to_gdns_records dns_name [("TXT", [("@", RecValue.single w)])] none =
      some (.recs [⟨dns_name, "TXT", DEFAULT_TTL, ["\"" ++ w ++ "\""]⟩]) := by
  have hq1 : '"' ∉ v.data.take 255 := fun hm => hvq (List.mem_of_mem_take hm)
  have hq2 : '"' ∉ (v.data.drop 255).take 255 :=
    fun hm => hvq (List.mem_of_mem_drop (List.mem_of_mem_take hm))
  have hq3 : '"' ∉ (v.data.drop 255).drop 255 :=
    fun hm => hvq (List.mem_of_mem_drop (List.mem_of_mem_drop hm))
  have hlen1 : (v.data.take 255).length = 255 := by
    rw [List.length_take, hvlen]
    omega
  have hlen2 : ((v.data.drop 255).take 255).length = 255 := by
    rw [List.length_take, List.length_drop, hvlen]
    omega
  have hlen3 : ((v.data.drop 255).drop 255).length = 90 := by
    rw [List.length_drop, List.length_drop, hvlen]
  have hqw : ∀ l : List Char, (quoteWrap l).length = l.length + 2 := by
    intro l
    show ('"' :: (l ++ ['"'])).length = l.length + 2
    simp
  have hrq : ∀ l : List Char, '"' ∉ l → pyRemoveQuotes (quoteWrap l) = String.mk l :=
    fun l h => pyRemoveQuotes_quoteWrap l h
  refine ⟨to_gdns_one_txt dns_name v _ (txt_encode_long v hv1 hv2 hvq hvlen), rfl, ?_, ?_,
    to_gdns_one_txt dns_name w _ (txt_encode_short w hw1 hw2 hwlen)⟩
  · intro r hr
    simp only [List.mem_cons, List.not_mem_nil, or_false] at hr
    rcases hr with rfl | rfl | rfl
    · rw [hrq _ hq1]
      constructor
      · show (v.data.take 255).length ≤ 255
        omega
      · rw [hqw]
        omega
    · rw [hrq _ hq2]
      constructor
      · show ((v.data.drop 255).take 255).length ≤ 255
        omega
      · rw [hqw]
        omega
    · rw [hrq _ hq3]
      constructor
      · show ((v.data.drop 255).drop 255).length ≤ 255
        omega
      · rw [hqw]
        omega
  · have hdata : (strJoin [quoteWrap (v.data.take 255), quoteWrap ((v.data.drop 255).take 255),
        quoteWrap ((v.data.drop 255).drop 255)]).data =
        (quoteWrap (v.data.take 255)).data ++ (quoteWrap ((v.data.drop 255).take 255)).data ++
          (quoteWrap ((v.data.drop 255).drop 255)).data := by
      show (((("" ++ quoteWrap (v.data.take 255)) ++ quoteWrap ((v.data.drop 255).take 255)) ++
        quoteWrap ((v.data.drop 255).drop 255)).data) = _
      simp [String.data_append]
    rw [pyRemoveQuotes, hdata, List.filter_append, List.filter_append,
      filter_quoteWrap _ hq1, filter_quoteWrap _ hq2, filter_quoteWrap _ hq3]
    rw [List.append_assoc, List.take_append_drop, List.take_append_drop]

/-- C4 witness: the amended statement at the concrete 600- and 200-character
values of the letter `a`. -/
theorem claim_C4_witness :
    to_gdns_records "example.com." [("TXT", [("@", RecValue.single (aStr 600))])] none =
      some (.recs [⟨"example.com.", "TXT", DEFAULT_TTL,
        [quoteWrap ((aStr 600).data.take 255), quoteWrap (((aStr 600).data.drop 255).take 255),
          quoteWrap (((aStr 600).data.drop 255).drop 255)]⟩]) ∧
    pyRemoveQuotes (strJoin [quoteWrap ((aStr 600).data.take 255),
        quoteWrap (((aStr 600).data.drop 255).take 255),
        quoteWrap (((aStr 600).data.drop 255).drop 255)]) = aStr 600 ∧
    to_gdns_records "example.com." [("TXT", [("@", RecValue.single (aStr 200))])] none =
      some (.recs [⟨"example.com.", "TXT", DEFAULT_TTL, ["\"" ++ aStr 200 ++ "\""]⟩]) := by
  have h := claim_C4 "example.com." (aStr 600) (aStr 200) (by decide) (by decide) (by decide)
    (by decide) (by decide) (by decide) (by decide)
  exact ⟨h.1, h.2.2.2.1, h.2.2.2.2⟩

/-- C5: for every subset sequence strictly longer than the superset sequence,
`_is_subset` raises (first conjunct: some exception escapes); and whenever the
subset extends the (well-formed) superset element-for-element, the raised
exception is precisely the out-of-bounds `IndexError` from `superset[index]` —
the mapping branch's graceful missing-key fallback is not applied. -/
theorem claim_C5 (sub sup : PList) (h : plLen sup < plLen sub) :
    (∃ e, is_subset (.seq sub) (.seq sup) = .error e) ∧
    (∀ rest, sub = plAppend sup rest → wfL sup = true →
      is_subset (.seq sub) (.seq sup) = .error .indexError) := by
  have hunf : is_subset (.seq sub) (.seq sup) =
      seqGo (isSubsetF (szL sub)) (.seq sup) sub 0 .nil .nil := by
    rw [is_subset, szT, isSubsetF]
  constructor
  · rw [hunf]
    exact seqGo_oob _ sup sub 0 .nil .nil (by omega) (by omega)
  · intro rest hsub hwf
    subst hsub
    have hrne : rest ≠ .nil := by
      intro hx
      subst hx
      rw [plLen_append, plLen] at h
      omega
    have hunf2 : is_subset (.seq (plAppend sup rest)) (.seq sup) =
        seqGo (isSubsetF (szL (plAppend sup rest))) (.seq sup) (plAppend sup rest) 0 .nil .nil := by
      rw [is_subset, szT, isSubsetF]
    rw [hunf2]
    apply seqGo_prefix_oob _ sup sup rest 0 .nil .nil rfl (by omega) hrne
    have hsz := lForall_sz sup
    have hwf' := lForall_wf sup hwf
    refine lForall_imp ?_ sup (lForall_and sup hsz hwf')
    rintro v ⟨hv1, hv2⟩
    refine ⟨⟨emptyLike v, emptyLike v⟩, ?_, truthy_emptyLike v⟩
    apply isSubsetF_self _ _ ?_ hv2
    have hax : szL (plAppend sup rest) = szL sup + szL rest := szL_append sup rest
    omega

/-- C5 witness: a two-element subset sequence against a one-element superset
sequence raises the out-of-bounds error. -/
theorem claim_C5_witness :
    is_subset (.seq (.cons (.int 1) (.cons (.int 2) .nil))) (.seq (.cons (.int 1) .nil)) =
      .error .indexError := by
  have h := claim_C5 (.cons (.int 1) (.cons (.int 2) .nil)) (.cons (.int 1) .nil) (by decide)
  exact h.2 (.cons (.int 2) .nil) rfl (by decide)

/-- C6, counterexample to the claim as stated: with the subset value itself a
mapping and the superset value a scalar, the `TypeError` is caught one level
deeper, so the delta's old is the narrow per-key value `{"k": 5}`, not the
entire superset mapping `{"k": 5, "m": 7}`. -/
theorem claim_C6_counterexample :
    is_subset (.map (.cons "k" (.map (.cons "a" (.int 1) .nil)) .nil))
        (.map (.cons "k" (.int 5) (.cons "m" (.int 7) .nil))) =
      .ok ⟨.map (.cons "k" (.map (.cons "a" (.int 1) .nil)) .nil),
        .map (.cons "k" (.int 5) .nil)⟩ ∧
    PTree.map (.cons "k" (.int 5) .nil) ≠
      PTree.map (.cons "k" (.int 5) (.cons "m" (.int 7) .nil)) :=
  ⟨rfl, by decide⟩

/-- C6 (amended): the whole-superset fallback fires when the recursive
comparison of a mapping key's value raises `TypeError` uncaught — e.g. the
subset value is a nonempty sequence and the superset value is a number scalar:
then the entire subset subtree under that key is reported as new and the
delta's old is rebound to the entire superset mapping. -/
theorem claim_C6 (k : String) (v0 : PTree) (vs : PList) (sl : PDict) (n : Int)
    (hlk : lookupD sl k = some (.int n)) :
    is_subset (.map (.cons k (.seq (.cons v0 vs)) .nil)) (.map sl) =
      .ok ⟨.map (.cons k (.seq (.cons v0 vs)) .nil), .map sl⟩ := by
  have hsz : szT (.map (.cons k (.seq (.cons v0 vs)) .nil)) =
      (szT (.seq (.cons v0 vs)) + 1) + 1 := by
    rw [szT, szD, szD]
  have hinner : isSubsetF (szT (.seq (.cons v0 vs)) + 1) (.seq (.cons v0 vs)) (.int n) =
      .error .typeError := by
    rw [isSubsetF, seqGo]
    rfl
  have hbind : (pyLookup (.map sl) k >>= fun w =>
      isSubsetF (szT (.seq (.cons v0 vs)) + 1) (.seq (.cons v0 vs)) w) =
      .error .typeError := by
    rw [pyLookup, hlk]
    exact hinner
  rw [is_subset, hsz, isSubsetF, dictGo, hbind]
  rfl

/-- C6 witness: the amended statement at a concrete input with a second
superset key, showing old = the entire superset mapping. -/
theorem claim_C6_witness :
    is_subset (.map (.cons "k" (.seq (.cons (.int 1) .nil)) .nil))
        (.map (.cons "k" (.int 5) (.cons "m" (.int 7) .nil))) =
      .ok ⟨.map (.cons "k" (.seq (.cons (.int 1) .nil)) .nil),
        .map (.cons "k" (.int 5) (.cons "m" (.int 7) .nil))⟩ :=
  claim_C6 "k" (.int 1) .nil (.cons "k" (.int 5) (.cons "m" (.int 7) .nil)) 5 rfl

/-- C7, counterexample to the claim as stated: the rrdata `"a b c d e f g"`
splits into exactly seven tokens, yet decode does not succeed for that record:
`int()` on the non-numeric serial raises (modelled as the `badInt` error). -/
theorem claim_C7_counterexample :
    (pySplit "a b c d e f g" " ").length = 7 ∧
    from_gdns_records "example.com." [⟨"example.com.", "SOA", 3600, ["a b c d e f g"]⟩] =
      .error .badInt :=
  ⟨rfl, rfl⟩

/-- C7 (amended): decoding a flat SOA record fails with the `MalformedSoa`
condition if and only if its rrdata does not split on single spaces into
exactly seven tokens; when it does split into seven tokens and the five
numeric fields parse as integers, decode succeeds for that record. -/
theorem claim_C7 (dns_name nm : String) (ttl : Nat) (r0 : String) :
    (from_gdns_records dns_name [⟨nm, "SOA", ttl, [r0]⟩] = .error .malformedSoa ↔
      (pySplit r0 " ").length ≠ 7) ∧
    (∀ p c t1 t2 t3 t4 t5 i1 i2 i3 i4 i5,
      pySplit r0 " " = [p, c, t1, t2, t3, t4, t5] →
      pyIntOfString t1 = some i1 → pyIntOfString t2 = some i2 → pyIntOfString t3 = some i3 →
      pyIntOfString t4 = some i4 → pyIntOfString t5 = some i5 →
      from_gdns_records dns_name [⟨nm, "SOA", ttl, [r0]⟩] =
        .ok ⟨some ⟨p, c, i1, i2, i3, i4, i5⟩, none⟩) := by
  have hsingle := from_single_soa dns_name nm ttl r0
  constructor
  · constructor
    · intro herr
      by_contra h7
      have hnm := decodeSoaFields_seven r0 h7
      rw [hsingle] at herr
      cases hd : decodeSoaFields r0 with
      | ok s =>
        rw [hd] at herr
        simp at herr
      | error e =>
        rw [hd] at herr
        simp at herr
        subst herr
        exact hnm hd
    · intro h7
      rw [hsingle, decodeSoaFields_not_seven r0 h7]
  · intro p c t1 t2 t3 t4 t5 i1 i2 i3 i4 i5 hsp hp1 hp2 hp3 hp4 hp5
    have hd : decodeSoaFields r0 = .ok ⟨p, c, i1, i2, i3, i4, i5⟩ := by
      rw [decodeSoaFields, hsp]
      simp [hp1, hp2, hp3, hp4, hp5]
    rw [hsingle, hd]

/-- C7 witness: a well-formed SOA rrdata decodes to the seven fields. -/
theorem claim_C7_witness :
    from_gdns_records "example.com." [⟨"example.com.", "SOA", 3600, ["ns. adm. 1 2 3 4 5"]⟩] =
      .ok ⟨some ⟨"ns.", "adm.", 1, 2, 3, 4, 5⟩, none⟩ :=
  (claim_C7 "example.com." "example.com." 3600 "ns. adm. 1 2 3 4 5").2
    "ns." "adm." "1" "2" "3" "4" "5" 1 2 3 4 5 (by decide) rfl rfl rfl rfl rfl

/-- C8: for every well-formed tree X (every mapping node of a Python value has
unique keys), `_is_subset(X, X)` returns the entirely empty delta — empty new
and empty old at the top level, and that `new` is falsy. -/
theorem claim_C8 (X : PTree) (h : wfT X = true) :
    is_subset X X = .ok ⟨emptyLike X, emptyLike X⟩ ∧ truthy (emptyLike X) = false := by
  refine ⟨?_, truthy_emptyLike X⟩
  rw [is_subset]
  exact isSubsetF_self (szT X) X (le_refl _) h

/-- C8 witness: idempotence at a concrete tree with a mapping, a sequence and
scalars. -/
theorem claim_C8_witness :
    is_subset
        (.map (.cons "a" (.seq (.cons (.int 1) (.cons (.str "b") .nil)))
          (.cons "c" (.int 0) .nil)))
        (.map (.cons "a" (.seq (.cons (.int 1) (.cons (.str "b") .nil)))
          (.cons "c" (.int 0) .nil))) = .ok ⟨.map .nil, .map .nil⟩ :=
  (claim_C8 (.map (.cons "a" (.seq (.cons (.int 1) (.cons (.str "b") .nil)))
    (.cons "c" (.int 0) .nil))) (by decide)).1

/-- C9: encoding with both the records mapping and the soa mapping empty
returns the descriptive no-op string, not an exception and not a record
list. -/
theorem claim_C9 (dns_name : String) :
    to_gdns_records dns_name [] none =
      some (.msg "Records and SOA are both empty: nothing to do!") := rfl

/-- C10: the decoder creates the type's (empty) host map before checking
whether the type is supported, so decoding a nonempty list of records all of
one unsupported type returns a result that still contains the records key,
mapping that type to the empty mapping. -/
theorem claim_C10 (dns_name ty : String) (recs : List FlatRecord)
    (hne : recs ≠ [])
    (hty : ∀ r ∈ recs, r.type = ty)
    (hsoa : ty ≠ "SOA") (hs : ty ∉ SINGLE_RECORD_TYPES) (hm : ty ∉ MULTIPLE_RECORD_TYPES) :
    from_gdns_records dns_name recs = .ok ⟨none, some [(ty, [])]⟩ := by
  match recs, hne with
  | r :: rest, _ =>
  have hr : r.type = ty := hty r (List.mem_cons_self _ _)
  have hens : ensureType [] ty = [(ty, [])] := rfl
  have h1 : fromGo dns_name (r :: rest) none [] = .ok (none, [(ty, [])]) := by
    rw [fromGo, hr, if_neg hsoa]
    simp only [hens, if_neg hs, if_neg hm]
    exact fromGo_unsupported dns_name ty rest none
      (fun q hq => hty q (List.mem_cons_of_mem _ hq)) hsoa hs hm
  rw [from_gdns_records, h1]
  rfl

/-- C10 witness: two records of the unsupported type `"BOGUS"` decode to a
records mapping holding `"BOGUS"` with an empty host map. -/
theorem claim_C10_witness :
    from_gdns_records "example.com."
        [⟨"x.example.com.", "BOGUS", 3600, ["v"]⟩, ⟨"y.example.com.", "BOGUS", 3600, []⟩] =
      .ok ⟨none, some [("BOGUS", [])]⟩ :=
  claim_C10 "example.com." "BOGUS"
    [⟨"x.example.com.", "BOGUS", 3600, ["v"]⟩, ⟨"y.example.com.", "BOGUS", 3600, []⟩]
    (by decide) (by decide) (by decide) (by decide) (by decide)
